import Mathlib

/-!
# Verification of the emergent-chemistry simulation core

A shallow embedding, in Lean 4, of the physics/chemistry core of the
atom-simulation repository: the atom/electron/bond data model
(`src/physics/atom.h`, `atom.cpp`), the pairwise and angular force field and
the bonding state machine (`src/physics/interaction.cpp`), the integrator and
thermostat (`src/physics/simulation.cpp`) and the molecule tracker
(`src/physics/molecule.cpp`).

Modelling conventions:
* C++ `float` arithmetic is embedded as exact rational arithmetic (`ℚ`);
  float literals in the source become the rationals they denote.
* The transcendental library routines used by the source (`std::exp`,
  `std::sqrt`, `std::acos`) have no exact rational counterpart; the embedding
  takes them as parameters (a `RealFuns` record).  Every general theorem below
  is proved for arbitrary parameter functions; concrete evaluations
  instantiate `fsqrt` with `ratSqrt`, which agrees with the real square root
  on perfect-square rationals (all concrete inputs are chosen so that every
  square root that influences a control decision is of a perfect square), and
  instantiate `fexp`/`facos` on paths where their value cannot influence the
  stated fact.
* C++ `int` is embedded as `ℤ`; vector indices are converted to `ℕ` after the
  source's own range guards.
* `std::vector` is embedded as `List`; element access after the source's
  bounds guards uses `getD` with an inhabited default.
-/

namespace AtomSim

/-- 3-component vector over ℚ, embedding `glm::vec3`. -/
@[ext] structure Vec3 where
  x : ℚ
  y : ℚ
  z : ℚ
deriving DecidableEq

instance : Zero Vec3 := ⟨⟨0, 0, 0⟩⟩
instance : Add Vec3 := ⟨fun a b => ⟨a.x + b.x, a.y + b.y, a.z + b.z⟩⟩
instance : Neg Vec3 := ⟨fun a => ⟨-a.x, -a.y, -a.z⟩⟩
instance : Sub Vec3 := ⟨fun a b => ⟨a.x - b.x, a.y - b.y, a.z - b.z⟩⟩
instance : SMul ℚ Vec3 := ⟨fun q v => ⟨q * v.x, q * v.y, q * v.z⟩⟩

instance : AddCommGroup Vec3 where
  add_assoc a b c := by ext <;> exact add_assoc ..
  zero_add a := by ext <;> exact zero_add ..
  add_zero a := by ext <;> exact add_zero ..
  add_comm a b := by ext <;> exact add_comm ..
  neg_add_cancel a := by ext <;> exact neg_add_cancel ..
  sub_eq_add_neg a b := by ext <;> exact sub_eq_add_neg ..
  nsmul := nsmulRec
  zsmul := zsmulRec

/-- Dot product, embedding `glm::dot`. -/
def vdot (a b : Vec3) : ℚ := a.x * b.x + a.y * b.y + a.z * b.z

/-- Squared Euclidean norm. -/
def normSq (v : Vec3) : ℚ := v.x * v.x + v.y * v.y + v.z * v.z

/-- Newton iteration for the integer square root, with explicit structural
fuel (128 steps suffice far beyond the magnitudes occurring here); used
instead of `Nat.sqrt` so that proofs by `decide` reduce in the kernel. -/
def isqrtAux : ℕ → ℕ → ℕ → ℕ
  | 0, _, g => g
  | fuel + 1, n, g =>
    let g2 := (g + n / g) / 2
    if g2 < g then isqrtAux fuel n g2 else g

/-- Integer square root (rounded down) via `isqrtAux`. -/
def isqrt (n : ℕ) : ℕ :=
  if n ≤ 1 then n else isqrtAux 128 n (n / 2 + 1)

/-- Exact rational square root where one exists: on a nonnegative rational
whose numerator and denominator are perfect squares it returns the true
square root, otherwise `0`.  Used to instantiate the `fsqrt` parameter on
concrete inputs, all of which are chosen to take square roots of perfect
squares wherever the result feeds a control decision. -/
def ratSqrt (q : ℚ) : ℚ :=
  let n := q.num.toNat
  let d := q.den
  if 0 ≤ q ∧ isqrt n * isqrt n = n ∧ isqrt d * isqrt d = d then
    (isqrt n : ℚ) / (isqrt d : ℚ)
  else 0

/-- The transcendental routines the source calls (`std::exp`, `std::sqrt`,
`std::acos`), taken as parameters of the embedding. -/
structure RealFuns where
  fexp : ℚ → ℚ
  fsqrt : ℚ → ℚ
  facos : ℚ → ℚ

/-- Euclidean length of a vector, embedding `glm::length` (a square root of
the dot product, via the `fsqrt` parameter). -/
def vlen (fn : RealFuns) (v : Vec3) : ℚ := fn.fsqrt (normSq v)

/-- `glm::clamp` / `std::clamp`: `min (max x lo) hi`. -/
def clampQ (x lo hi : ℚ) : ℚ := min (max x lo) hi

/-- Quantum numbers of an electron (`QuantumNumbers` in `electron.h`). -/
structure QuantumNumbers where
  n : ℤ
  l : ℤ
  m : ℤ
  s : ℤ
deriving DecidableEq

/-- A single electron (`Electron` in `electron.h`). -/
structure Electron where
  qn : QuantumNumbers
  zEff : ℚ
  pos : Vec3
  shared : Bool
  sharedWith : ℤ
deriving DecidableEq

instance : Inhabited Electron :=
  ⟨{ qn := ⟨1, 0, 0, 1⟩, zEff := 1, pos := 0, shared := false, sharedWith := -1 }⟩

/-- Per-element reference record (`ElementData` in `element.h`).  The actual
values are loaded at runtime from an external JSON file, so the embedding
treats them as free data. -/
structure ElementData where
  atomicNumber : ℤ
  symbol : String
  name : String
  atomicMass : ℚ
  electronegativity : ℚ
  ionizationEnergy : ℚ
  secondIonization : ℚ
  electronAffinity : ℚ
  atomicRadius : ℚ
  covalentRadius : ℚ
  vdwRadius : ℚ
  metallicRadius : ℚ
  valenceElectrons : ℤ
  category : String
deriving DecidableEq

/-- The zero-valued sentinel record (a default-constructed `ElementData`,
as returned by `PeriodicTable::get` for unknown atomic numbers). -/
def eldefault : ElementData :=
  { atomicNumber := 0, symbol := "", name := "", atomicMass := 0
  , electronegativity := 0, ionizationEnergy := 0, secondIonization := 0
  , electronAffinity := 0, atomicRadius := 0, covalentRadius := 0
  , vdwRadius := 0, metallicRadius := 0, valenceElectrons := 0
  , category := "" }

instance : Inhabited ElementData := ⟨eldefault⟩

/-- Bond type (`Bond::Type` in `atom.h`). -/
inductive BondType where
  | ionic
  | covalent
  | metallic
  | hydrogen
  | vdw
deriving DecidableEq

/-- A bond entry in one atom's bond list (`Bond` in `atom.h`).  The partner
atom is referenced by its index (a C++ `int`, hence `ℤ`) into the shared
atom collection. -/
structure Bond where
  otherAtomIdx : ℤ
  btype : BondType
  order : ℤ
  strength : ℚ
  equilibriumDist : ℚ
  morseAlpha : ℚ
deriving DecidableEq

instance : Inhabited Bond :=
  ⟨{ otherAtomIdx := -1, btype := .covalent, order := 1, strength := 1
   , equilibriumDist := 0, morseAlpha := 1 }⟩

/-- An atom (`Atom` in `atom.h`).  The source's `element` pointer is embedded
by value: `Atom::init` always assigns it from the periodic table (which
returns a zero-valued sentinel rather than null for unknown elements), so
the source's null-pointer guards in `availableValenceElectrons`,
`wantsElectron` and `wantsToLoseElectron` are never taken and are dropped
from the embedding. -/
structure AtomQ where
  elementZ : ℤ
  element : ElementData
  pos : Vec3
  vel : Vec3
  force : Vec3
  mass : ℚ
  electrons : List Electron
  charge : ℤ
  effectiveValence : ℤ
  bonds : List Bond
  moleculeId : ℤ
  kineticEnergy : ℚ
  potentialEnergy : ℚ
  visualRadius : ℚ
deriving DecidableEq

/-- A default-constructed `Atom`. -/
def adefault : AtomQ :=
  { elementZ := 1, element := eldefault, pos := 0, vel := 0, force := 0
  , mass := 1, electrons := [], charge := 0, effectiveValence := 0
  , bonds := [], moleculeId := -1, kineticEnergy := 0, potentialEnergy := 0
  , visualRadius := 1 }

instance : Inhabited AtomQ := ⟨adefault⟩

/-- `Atom::totalBondOrder`: sum of the orders of the atom's bonds. -/
def totalBondOrder (a : AtomQ) : ℤ :=
  a.bonds.foldl (fun t b => t + b.order) 0

/-- `Atom::availableValenceElectrons`:
`max 0 (valenceElectrons − totalBondOrder)`. -/
def availableValenceElectrons (a : AtomQ) : ℤ :=
  max 0 (a.element.valenceElectrons - totalBondOrder a)

/-- `Atom::updateEffectiveValence`. -/
def updateEffectiveValence (a : AtomQ) : AtomQ :=
  { a with effectiveValence := availableValenceElectrons a }

/-- `Atom::wantsElectron`: electron affinity above `0.3f` and fewer than 8
valence electrons. -/
def wantsElectron (a : AtomQ) : Bool :=
  decide ((3 : ℚ)/10 < a.element.electronAffinity ∧ a.element.valenceElectrons < 8)

/-- `Atom::wantsToLoseElectron`: ionization energy below `8.0f` and at most 2
valence electrons. -/
def wantsToLoseElectron (a : AtomQ) : Bool :=
  decide (a.element.ionizationEnergy < 8 ∧ a.element.valenceElectrons ≤ 2)

/-- `Atom::removeOuterElectron`: pops the last electron, increments the net
charge and recomputes the effective valence.  On an atom with no electrons
the source performs `electrons.back()` on an empty `std::vector` — undefined
behaviour; the embedding then returns the default electron and leaves the
list empty so that execution can be observed to reach the violation (call
sites that can hit this case set a ghost flag, see `EngineState`). -/
def removeOuterElectron (a : AtomQ) : Electron × AtomQ :=
  let e := a.electrons.getLastD default
  (e, updateEffectiveValence
        { a with electrons := a.electrons.dropLast, charge := a.charge + 1 })

/-- `Atom::addElectron`: appends the electron, decrements the net charge and
recomputes the effective valence. -/
def addElectron (a : AtomQ) (e : Electron) : AtomQ :=
  updateEffectiveValence
    { a with electrons := a.electrons ++ [e], charge := a.charge - 1 }

/-- Boltzmann constant in eV/K (`InteractionEngine::kB`, `8.617e-5f`). -/
def kB : ℚ := 8617/100000000

/-- Coulomb constant in eV·Å/e² (`InteractionEngine::coulK`, `14.4f`). -/
def coulK : ℚ := 144/10

/-- A reaction-log entry.  The source stores a human-readable string built
with an `ostringstream`; the embedding keeps the structured content of each
of the three message kinds instead of the formatted text. -/
inductive LogMsg where
  | ionicFormed (donorSym acceptorSym : String) (dE : ℚ)
  | covalentFormed (symA symB : String) (order : ℤ) (energy : ℚ)
  | bondBroken (symA symB : String) (temp : ℚ)
deriving DecidableEq

/-- `InteractionEngine::ReactionEvent`. -/
structure ReactionEvent where
  time : ℚ
  msg : LogMsg
deriving DecidableEq

/-- The mutable data members of `InteractionEngine` (`interaction.h`),
plus one ghost field: `ghostEmptyPop` is instrumentation, not source state —
it is set whenever `removeOuterElectron` is invoked on an atom whose
electron list is empty, which in the source is an out-of-bounds
`std::vector::back()` (undefined behaviour). -/
structure EngineState where
  temperature : ℚ
  pressure : ℚ
  bondingRange : ℚ
  ionicThreshold : ℚ
  ljEpsilon : ℚ
  cutoffDist : ℚ
  switchDist : ℚ
  totalKE : ℚ
  totalPE : ℚ
  totalBondE : ℚ
  bondFormedCount : ℤ
  bondBrokenCount : ℤ
  reactionLog : List ReactionEvent
  simTime : ℚ
  ghostEmptyPop : Bool
deriving DecidableEq

/-- An `InteractionEngine` with the member initializers of `interaction.h`. -/
def defaultEngine : EngineState :=
  { temperature := 300, pressure := 1, bondingRange := 5
  , ionicThreshold := 17/10, ljEpsilon := 1/100, cutoffDist := 20
  , switchDist := 15, totalKE := 0, totalPE := 0, totalBondE := 0
  , bondFormedCount := 0, bondBrokenCount := 0, reactionLog := []
  , simTime := 0, ghostEmptyPop := false }

/-- `InteractionEngine::switchingFunction`: smooth cubic cutoff, 1 below
`switchDist`, 0 above `cutoffDist`, `1 − 3t² + 2t³` in between. -/
def switchingFunction (es : EngineState) (dist : ℚ) : ℚ :=
  if dist < es.switchDist then 1
  else if dist > es.cutoffDist then 0
  else
    let t := (dist - es.switchDist) / (es.cutoffDist - es.switchDist)
    1 - 3 * t * t + 2 * t * t * t

/-- `InteractionEngine::morseForce`.  The source's unused `a`/`b` atom
parameters are dropped; only the bond record and the distance are read. -/
def morseForce (fn : RealFuns) (bond : Bond) (dist : ℚ) (dir : Vec3) : Vec3 :=
  let De := bond.strength
  let alpha := bond.morseAlpha
  let re := bond.equilibriumDist
  if De < 1/1000000 ∨ dist < 1/10 then 0
  else
    let expt := fn.fexp (-alpha * (dist - re))
    let magnitude := 2 * De * alpha * (1 - expt) * expt
    (-magnitude) • dir

/-- `InteractionEngine::coulombForce`: `k·q1·q2/r²` with a soft-core distance
floor of `0.5f`, times the switching function. -/
def coulombForce (es : EngineState) (a b : AtomQ) (dist : ℚ) (dir : Vec3) :
    Vec3 :=
  if a.charge = 0 ∧ b.charge = 0 then 0
  else
    let softDist := max dist (1/2)
    let magnitude := coulK * (a.charge : ℚ) * (b.charge : ℚ) / (softDist * softDist)
    (magnitude * switchingFunction es dist) • dir

/-- `InteractionEngine::ljForce`: Lennard-Jones 12-6 with the mixing rule
`σ = (vdwA + vdwB)/200` (pm→Å), soft-core floor `0.5f`, times the switching
function. -/
def ljForce (es : EngineState) (a b : AtomQ) (dist : ℚ) (dir : Vec3) : Vec3 :=
  let sigma := (a.element.vdwRadius + b.element.vdwRadius) / 200
  let softDist := max dist (1/2)
  let sr6 := (sigma / softDist)^6
  let magnitude := 24 * es.ljEpsilon * (2 * sr6 * sr6 - sr6) / softDist
  (magnitude * switchingFunction es dist) • dir

/-- `InteractionEngine::idealBondAngle` (degrees, by steric number). -/
def idealBondAngle (stericNumber : ℤ) : ℚ :=
  if stericNumber = 2 then 180
  else if stericNumber = 3 then 120
  else if stericNumber = 4 then 10947/100
  else if stericNumber = 5 then 90
  else if stericNumber = 6 then 90
  else 10947/100

/-- Add `v` to the force accumulator of atom `i` (in-range writes only; the
source performs the corresponding `+=` after its own index guards). -/
def addForce (l : List AtomQ) (i : ℕ) (v : Vec3) : List AtomQ :=
  match l.get? i with
  | some a => l.set i { a with force := a.force + v }
  | none => l

/-- One `(bi, bj)` iteration of the angle-force double loop in
`InteractionEngine::applyAngleForces`: the restoring force on each of the two
bonded neighbours together with the equal-and-opposite reaction on the
center. -/
def angleForcePair (fn : RealFuns) (ats : List AtomQ) (i : ℕ) (idealRad : ℚ)
    (bi bj : ℕ) : List AtomQ :=
  let center := ats.getD i adefault
  let n := ats.length
  let idxA := (center.bonds.getD bi default).otherAtomIdx
  let idxB := (center.bonds.getD bj default).otherAtomIdx
  if idxA < 0 ∨ idxB < 0 then ats
  else if (n : ℤ) ≤ idxA ∨ (n : ℤ) ≤ idxB then ats
  else
    let rA0 := (ats.getD idxA.toNat adefault).pos - center.pos
    let rB0 := (ats.getD idxB.toNat adefault).pos - center.pos
    let lenA := vlen fn rA0
    let lenB := vlen fn rB0
    if lenA < 1/100 ∨ lenB < 1/100 then ats
    else
      let rA := (1/lenA) • rA0
      let rB := (1/lenB) • rB0
      let cosAngle := clampQ (vdot rA rB) (-1) 1
      let angle := fn.facos cosAngle
      let dAngle := angle - idealRad
      let forceMag := 2 * dAngle
      let perpA0 := rB - cosAngle • rA
      let perpAlen := vlen fn perpA0
      let ats1 :=
        if 1/1000 < perpAlen then
          let perpA := (1/perpAlen) • perpA0
          addForce (addForce ats idxA.toNat ((forceMag / lenA) • perpA)) i
            (-((forceMag / lenA) • perpA))
        else ats
      let perpB0 := rA - cosAngle • rB
      let perpBlen := vlen fn perpB0
      if 1/1000 < perpBlen then
        let perpB := (1/perpBlen) • perpB0
        addForce (addForce ats1 idxB.toNat ((forceMag / lenB) • perpB)) i
          (-((forceMag / lenB) • perpB))
      else ats1

/-- The ordered list of index pairs `(i, j)` with `i < j < n`, in the
iteration order of the source's nested `for` loops. -/
def pairsLt (n : ℕ) : List (ℕ × ℕ) :=
  (List.range n).flatMap fun i => ((List.range n).drop (i+1)).map fun j => (i, j)

/-- The per-center body of `InteractionEngine::applyAngleForces`: skip
centers with fewer than two bonds, compute the steric number (bonds plus
lone pairs, integer division as in the source) and the ideal angle, then
apply the angle force to every pair of bonded neighbours. -/
def angleCenterStep (fn : RealFuns) (ats : List AtomQ) (i : ℕ) : List AtomQ :=
  let center := ats.getD i adefault
  let nB := center.bonds.length
  if nB < 2 then ats
  else
    let lonePairs : ℤ :=
      max 0 ((center.element.valenceElectrons - totalBondOrder center) / 2)
    let stericNumber : ℤ := (nB : ℤ) + lonePairs
    let idealRad := idealBondAngle stericNumber * (314159265/100000000) / 180
    (pairsLt nB).foldl (fun acc bb => angleForcePair fn acc i idealRad bb.1 bb.2)
      ats

/-- `InteractionEngine::applyAngleForces`. -/
def applyAngleForces (fn : RealFuns) (atoms : List AtomQ) : List AtomQ :=
  (List.range atoms.length).foldl (angleCenterStep fn) atoms

/-- One `(i, j)` iteration of the pairwise force loop in
`InteractionEngine::computeForces`: Morse if bonded else Lennard-Jones, plus
Coulomb, applied to `i` and with opposite sign to `j`. -/
def forcePairStep (fn : RealFuns) (es : EngineState) (ats : List AtomQ)
    (i j : ℕ) : List AtomQ :=
  let ai := ats.getD i adefault
  let aj := ats.getD j adefault
  let diff := ai.pos - aj.pos
  let dist := vlen fn diff
  if dist < 1/100 ∨ dist > es.cutoffDist then ats
  else
    let dir := (1/dist) • diff
    let bond := ai.bonds.find? fun b => decide (b.otherAtomIdx = (j : ℤ))
    let f := (match bond with
              | some b => morseForce fn b dist dir
              | none => ljForce es ai aj dist dir) + coulombForce es ai aj dist dir
    addForce (addForce ats i f) j (-f)

/-- The body of the outer `i` loop of `InteractionEngine::computeForces`:
run the inner `j` pass over the pairs `(i, j)` with `j > i`, then record
atom `i`'s kinetic energy `½·m·v²` on the atom and into the running total
(the accumulator's first component). -/
def forceRowStep (fn : RealFuns) (es : EngineState) (n : ℕ)
    (p : ℚ × List AtomQ) (i : ℕ) : ℚ × List AtomQ :=
  let atoms1 := ((List.range n).drop (i+1)).foldl
    (fun ats j => forcePairStep fn es ats i j) p.2
  let a := atoms1.getD i adefault
  let ke := 1/2 * a.mass * vdot a.vel a.vel
  (p.1 + ke, atoms1.set i { a with kineticEnergy := ke })

/-- `InteractionEngine::computeForces`: reset accumulators, run the pairwise
pass (recording each atom's kinetic energy and the total), then the VSEPR
angle pass. -/
def computeForces (fn : RealFuns) (es : EngineState) (atoms : List AtomQ) :
    EngineState × List AtomQ :=
  let n := atoms.length
  let atoms0 := atoms.map fun a => { a with force := (0 : Vec3) }
  let p := (List.range n).foldl (forceRowStep fn es n) ((0 : ℚ), atoms0)
  ({ es with totalPE := 0, totalKE := p.1 }, applyAngleForces fn p.2)

/-- Replace atom `i` by `f` applied to it (in-range only). -/
def modifyAtom (l : List AtomQ) (i : ℕ) (f : AtomQ → AtomQ) : List AtomQ :=
  match l.get? i with
  | some a => l.set i (f a)
  | none => l

/-- Replace the bond list of atom `i`. -/
def setBonds (l : List AtomQ) (i : ℕ) (bs : List Bond) : List AtomQ :=
  modifyAtom l i fun a => { a with bonds := bs }

/-- `InteractionEngine::estimateBondEnergy`. -/
def estimateBondEnergy (fn : RealFuns) (a b : AtomQ) (t : BondType)
    (order : ℤ) : ℚ :=
  if t = .ionic then
    let dist := vlen fn (a.pos - b.pos)
    |coulK / max dist 1|
  else
    let ieA := a.element.ionizationEnergy
    let ieB := b.element.ionizationEnergy
    let eaA := max a.element.electronAffinity (1/10)
    let eaB := max b.element.electronAffinity (1/10)
    let baseBondE := fn.fsqrt (eaA * eaB) + fn.fsqrt (ieA * ieB) * (1/10)
    baseBondE * (order : ℚ)

/-- The donor chosen by `InteractionEngine::tryIonicBond`: the index of the
lower-electronegativity atom of the pair (`a` wins ties to `b`'s side, as in
the source's strict `<`). -/
def ionicDonorIdx (atoms : List AtomQ) (i j : ℕ) : ℕ :=
  if (atoms.getD i adefault).element.electronegativity
      < (atoms.getD j adefault).element.electronegativity then i else j

/-- The acceptor chosen by `InteractionEngine::tryIonicBond`: the other atom
of the pair. -/
def ionicAccIdx (atoms : List AtomQ) (i j : ℕ) : ℕ :=
  if (atoms.getD i adefault).element.electronegativity
      < (atoms.getD j adefault).element.electronegativity then j else i

/-- The Born–Haber energy balance computed by `InteractionEngine::tryIonicBond`
(lines 212–217): `ΔE = IE(donor) − EA(acceptor) − coulK / max(dist, 0.5)`,
where the donor is the lower-electronegativity atom of the pair. -/
def ionicDeltaE (fn : RealFuns) (atoms : List AtomQ) (i j : ℕ) : ℚ :=
  let a := atoms.getD i adefault
  let b := atoms.getD j adefault
  let donor := atoms.getD (ionicDonorIdx atoms i j) adefault
  let acceptor := atoms.getD (ionicAccIdx atoms i j) adefault
  let dist := vlen fn (a.pos - b.pos)
  let coulombStab := coulK / max dist (1/2)
  donor.element.ionizationEnergy - acceptor.element.electronAffinity - coulombStab

/-- `InteractionEngine::tryIonicBond`.  Returns whether a bond was formed
together with the updated engine state and atom collection.  The electron
transfer on success performs `removeOuterElectron` on the donor *without*
checking that the donor still has electrons; the ghost flag records when the
pop hits an empty list (undefined behaviour in the source). -/
def tryIonicBond (fn : RealFuns) (es : EngineState) (atoms : List AtomQ)
    (i j : ℕ) : Bool × EngineState × List AtomQ :=
  let donorIdx := ionicDonorIdx atoms i j
  let accIdx := ionicAccIdx atoms i j
  let donor := atoms.getD donorIdx adefault
  let acceptor := atoms.getD accIdx adefault
  if wantsToLoseElectron donor = false then (false, es, atoms)
  else if wantsElectron acceptor = false then (false, es, atoms)
  else
    let deltaE := ionicDeltaE fn atoms i j
    if deltaE > 0 then (false, es, atoms)
    else
      let thermalE := kB * es.temperature
      if |deltaE| < thermalE * 2 then (false, es, atoms)
      else
        let ghost := donor.electrons.isEmpty
        let ed := removeOuterElectron donor
        let acceptor1 := addElectron acceptor ed.1
        let bondE := |deltaE|
        let eqDist := (donor.element.covalentRadius
                       + acceptor.element.covalentRadius) / 100
        let alpha := fn.fsqrt (5 / (2 * max bondE (1/10)))
        let bondA : Bond := { otherAtomIdx := (accIdx : ℤ), btype := .ionic
                            , order := 1, strength := bondE
                            , equilibriumDist := eqDist, morseAlpha := alpha }
        let bondB : Bond := { otherAtomIdx := (donorIdx : ℤ), btype := .ionic
                            , order := 1, strength := bondE
                            , equilibriumDist := eqDist, morseAlpha := alpha }
        let donor2 := { ed.2 with bonds := ed.2.bonds ++ [bondA] }
        let acceptor2 := { acceptor1 with bonds := acceptor1.bonds ++ [bondB] }
        let atoms1 := (atoms.set donorIdx donor2).set accIdx acceptor2
        let es1 := { es with
          totalBondE := es.totalBondE + bondE
          , bondFormedCount := es.bondFormedCount + 1
          , reactionLog := es.reactionLog ++
              [⟨es.simTime, .ionicFormed donor.element.symbol
                  acceptor.element.symbol (-deltaE)⟩]
          , ghostEmptyPop := es.ghostEmptyPop || ghost }
        (true, es1, atoms1)

/-- The order of the covalent bond attempted on `(i, j)`: the smaller of the
two available valence counts, capped at 3. -/
def covalentOrder (atoms : List AtomQ) (i j : ℕ) : ℤ :=
  min (min (availableValenceElectrons (atoms.getD i adefault))
           (availableValenceElectrons (atoms.getD j adefault))) 3

/-- The overlap-weighted bond energy computed by
`InteractionEngine::tryCovalentBond` (lines 264–274): the baseline estimate
scaled by the Gaussian overlap factor peaked at the equilibrium
separation. -/
def covalentBondEnergy (fn : RealFuns) (atoms : List AtomQ) (i j : ℕ) : ℚ :=
  let a := atoms.getD i adefault
  let b := atoms.getD j adefault
  let dist := vlen fn (a.pos - b.pos)
  let eqDist := (a.element.covalentRadius + b.element.covalentRadius) / 100
  let overlapSigma := eqDist * (1/2)
  let overlapFactor := fn.fexp (-((dist - eqDist) * (dist - eqDist))
                        / (overlapSigma * overlapSigma))
  estimateBondEnergy fn a b .covalent (covalentOrder atoms i j) * overlapFactor

/-- `InteractionEngine::tryCovalentBond`. -/
def tryCovalentBond (fn : RealFuns) (es : EngineState) (atoms : List AtomQ)
    (i j : ℕ) : Bool × EngineState × List AtomQ :=
  let a := atoms.getD i adefault
  let b := atoms.getD j adefault
  let availA := availableValenceElectrons a
  let availB := availableValenceElectrons b
  if availA ≤ 0 ∨ availB ≤ 0 then (false, es, atoms)
  else
    let order := covalentOrder atoms i j
    let eqDist := (a.element.covalentRadius + b.element.covalentRadius) / 100
    let bondE := covalentBondEnergy fn atoms i j
    let thermalE := kB * es.temperature
    if bondE < thermalE * 3 then (false, es, atoms)
    else
      let alpha := fn.fsqrt (5 / (2 * max bondE (1/10)))
      let bondA : Bond := { otherAtomIdx := (j : ℤ), btype := .covalent
                          , order := order, strength := bondE
                          , equilibriumDist := eqDist, morseAlpha := alpha }
      let bondB : Bond := { otherAtomIdx := (i : ℤ), btype := .covalent
                          , order := order, strength := bondE
                          , equilibriumDist := eqDist, morseAlpha := alpha }
      let a1 := updateEffectiveValence { a with bonds := a.bonds ++ [bondA] }
      let b1 := updateEffectiveValence { b with bonds := b.bonds ++ [bondB] }
      let atoms1 := (atoms.set i a1).set j b1
      let es1 := { es with
        totalBondE := es.totalBondE + bondE
        , bondFormedCount := es.bondFormedCount + 1
        , reactionLog := es.reactionLog ++
            [⟨es.simTime, .covalentFormed a.element.symbol b.element.symbol
                order bondE⟩] }
      (true, es1, atoms1)

/-- `InteractionEngine::shouldBreakBond`.  The source's unused `a`/`b`
parameters are dropped; the decision reads only the bond record, the current
distance and the temperature. -/
def shouldBreakBond (fn : RealFuns) (es : EngineState) (bond : Bond)
    (dist : ℚ) : Bool :=
  let De := bond.strength
  let expt := fn.fexp (-bond.morseAlpha * (dist - bond.equilibriumDist))
  let morseE := De * (1 - expt) * (1 - expt)
  if morseE > De * (9/10) then true
  else
    let thermalE := kB * es.temperature
    let probability := fn.fexp (-De / (thermalE * 3))
    if probability > 1/2 then true
    else if dist > bond.equilibriumDist * (5/2) then true
    else false

/-- The erase-as-you-iterate loop over atom `i`'s bond list in phase 1 of
`InteractionEngine::updateBonds` (lines 341–377).  `kept` holds the entries
already passed over, `pending` those not yet visited; the invariant
maintained (and faithful to the source, whose iterator writes only at the
cursor) is that atom `i`'s live bond list equals `kept ++ pending`.  On a
break: the mirrored entries are erased from the partner's list, then — if the
bond is ionic and atom `i` currently holds positive charge — one electron is
moved from the partner back to atom `i` when the partner has one, then the
cursor entry itself is erased and the event logged. -/
def breakLoop (fn : RealFuns) (n : ℕ) (i : ℕ) (es : EngineState)
    (atoms : List AtomQ) (kept : List Bond) :
    List Bond → EngineState × List AtomQ
  | [] => (es, atoms)
  | b :: rest =>
    if b.otherAtomIdx < 0 ∨ (n : ℤ) ≤ b.otherAtomIdx then
      breakLoop fn n i es (setBonds atoms i (kept ++ rest)) kept rest
    else
      let j := b.otherAtomIdx.toNat
      let dist := vlen fn ((atoms.getD i adefault).pos
                           - (atoms.getD j adefault).pos)
      if shouldBreakBond fn es b dist then
        let atoms1 := modifyAtom atoms j fun aj =>
          { aj with bonds := aj.bonds.filter fun b2 =>
              decide (¬ b2.otherAtomIdx = (i : ℤ)) }
        let step2 : EngineState × List AtomQ :=
          if b.btype = .ionic ∧ 0 < (atoms1.getD i adefault).charge then
            if (atoms1.getD j adefault).electrons.isEmpty = false then
              let ed := removeOuterElectron (atoms1.getD j adefault)
              let atoms1a := atoms1.set j ed.2
              (es, modifyAtom atoms1a i fun ai => addElectron ai ed.1)
            else (es, atoms1)
          else (es, atoms1)
        let es2 := step2.1
        let atoms2 := step2.2
        let es3 := { es2 with
          reactionLog := es2.reactionLog ++
            [⟨es2.simTime, .bondBroken ((atoms2.getD i adefault).element.symbol)
                ((atoms2.getD j adefault).element.symbol) es2.temperature⟩]
          , totalBondE := es2.totalBondE - b.strength
          , bondBrokenCount := es2.bondBrokenCount + 1 }
        breakLoop fn n i es3 (setBonds atoms2 i (kept ++ rest)) kept rest
      else
        breakLoop fn n i es atoms (kept ++ [b]) rest

/-- Phase 1 of `InteractionEngine::updateBonds` for one atom. -/
def phase1Step (fn : RealFuns) (n : ℕ) (p : EngineState × List AtomQ)
    (i : ℕ) : EngineState × List AtomQ :=
  breakLoop fn n i p.1 p.2 [] ((p.2.getD i adefault).bonds)

/-- One `(i, j)` iteration of phase 2 of `InteractionEngine::updateBonds`:
range / already-bonded / noble-gas / unknown-electronegativity gating, then
routing by electronegativity difference to the ionic or covalent attempt. -/
def pairBondStep (fn : RealFuns) (p : EngineState × List AtomQ)
    (ij : ℕ × ℕ) : EngineState × List AtomQ :=
  let es := p.1
  let atoms := p.2
  let i := ij.1
  let j := ij.2
  let ai := atoms.getD i adefault
  let aj := atoms.getD j adefault
  let dist := vlen fn (ai.pos - aj.pos)
  if dist > es.bondingRange then p
  else if ai.bonds.any (fun b => decide (b.otherAtomIdx = (j : ℤ))) then p
  else if ai.element.category = "noble_gas" ∨ aj.element.category = "noble_gas"
    then p
  else
    let chiA := ai.element.electronegativity
    let chiB := aj.element.electronegativity
    if chiA < 1/100 ∨ chiB < 1/100 then p
    else
      let deltaChi := |chiA - chiB|
      if deltaChi > es.ionicThreshold then
        let r := tryIonicBond fn es atoms i j
        (r.2.1, r.2.2)
      else
        let r := tryCovalentBond fn es atoms i j
        (r.2.1, r.2.2)

/-- `InteractionEngine::updateBonds`: break pass over every atom's bond list,
then the formation pass over all pairs, then a final recomputation of every
atom's effective valence. -/
def updateBonds (fn : RealFuns) (es : EngineState) (atoms : List AtomQ) :
    EngineState × List AtomQ :=
  let n := atoms.length
  let p1 := (List.range n).foldl (phase1Step fn n) (es, atoms)
  let p2 := (pairsLt n).foldl (pairBondStep fn) p1
  (p2.1, p2.2.map updateEffectiveValence)

/-- Total kinetic energy `Σ ½·m·v²` as summed by
`Simulation::berendsenThermostat`. -/
def sumKineticEnergy (atoms : List AtomQ) : ℚ :=
  atoms.foldl (fun s a => s + 1/2 * a.mass * vdot a.vel a.vel) 0

/-- `Simulation::berendsenThermostat`: does nothing when the collection is
empty *or the target temperature is below 1 K*; otherwise computes the
instantaneous temperature by equipartition, floors it at 1 K, computes
`λ = sqrt(1 + (dt/τ)(Ttarget/Tcurrent − 1))`, clamps it to `[0.9, 1.1]` and
scales every velocity by it. -/
def berendsenThermostat (fn : RealFuns) (atoms : List AtomQ)
    (dt targetT tau : ℚ) : List AtomQ :=
  if atoms.isEmpty = true ∨ targetT < 1 then atoms
  else
    let totalKE := sumKineticEnergy atoms
    let currentT0 := 2/3 * (totalKE / (atoms.length : ℚ)) / kB
    let currentT := if currentT0 < 1 then 1 else currentT0
    let lambda0 := fn.fsqrt (1 + dt / tau * (targetT / currentT - 1))
    let lambda := clampQ lambda0 (9/10) (11/10)
    atoms.map fun a => { a with vel := lambda • a.vel }

/-- One axis of the reflective boundary in `Simulation::applyBoundary`:
clamp the coordinate to the face and multiply the velocity component by
`−0.5` on a crossing. -/
def reflect1 (hw p v : ℚ) : ℚ × ℚ :=
  if p > hw then (hw, v * (-1/2))
  else if p < -hw then (-hw, v * (-1/2))
  else (p, v)

/-- `Simulation::applyBoundary` over the three axes. -/
def applyBoundary (worldSize : ℚ) (a : AtomQ) : AtomQ :=
  let rx := reflect1 worldSize a.pos.x a.vel.x
  let ry := reflect1 worldSize a.pos.y a.vel.y
  let rz := reflect1 worldSize a.pos.z a.vel.z
  { a with pos := ⟨rx.1, ry.1, rz.1⟩, vel := ⟨rx.2, ry.2, rz.2⟩ }

/-- A molecule record (`Molecule` in `molecule.h`). -/
structure MoleculeQ where
  id : ℤ
  atomIndices : List ℕ
  totalBondEnergy : ℚ
  formula : String
  centerOfMass : Vec3
  totalMass : ℚ
deriving DecidableEq

/-- Insert one more occurrence of symbol `s` into an association list kept
sorted by key, embedding `std::map<std::string,int>` under `counts[sym]++`:
the map keeps its keys in strictly increasing lexicographic order and
increments in place when the key exists. -/
def bumpCount : List (String × ℕ) → String → List (String × ℕ)
  | [], s => [(s, 1)]
  | (k, c) :: rest, s =>
    if s < k then (s, 1) :: (k, c) :: rest
    else if s = k then (k, c + 1) :: rest
    else (k, c) :: bumpCount rest s

/-- The element symbol of atom `i`. -/
def symbolAt (atoms : List AtomQ) (i : ℕ) : String :=
  (atoms.getD i adefault).element.symbol

/-- Format one `symbol ↦ count` entry: the symbol, followed by the count when
it exceeds 1. -/
def fmtEntry (kv : String × ℕ) : String :=
  kv.1 ++ (if 1 < kv.2 then toString kv.2 else "")

/-- The `append` lambda of `MoleculeTracker::computeFormula`: if the symbol
is present in the counts, emit its entry and erase it. -/
def appendSym (sym : String) (p : String × List (String × ℕ)) :
    String × List (String × ℕ) :=
  match p.2.lookup sym with
  | some c => (p.1 ++ fmtEntry (sym, c), p.2.eraseP fun kv => kv.1 == sym)
  | none => p

/-- `MoleculeTracker::computeFormula`: single atoms yield the bare symbol;
otherwise count atoms by symbol in a sorted map, emit C then H via
`appendSym`, then the remaining entries in map (lexicographic) order. -/
def computeFormula (atoms : List AtomQ) (indices : List ℕ) : String :=
  if indices.length = 1 then symbolAt atoms (indices.headD 0)
  else
    let counts := indices.foldl (fun m idx => bumpCount m (symbolAt atoms idx)) []
    let p1 := appendSym "C" ("", counts)
    let p2 := appendSym "H" p1
    p2.2.foldl (fun acc kv => acc ++ fmtEntry kv) p2.1

/-- Modelled from the spec's words (§4.6): the Hill-system formula of a
multiset of element symbols — "carbon first (if present), hydrogen second
(if present), remaining element symbols in alphabetical order, each followed
by its atom count when >1 (count of 1 is omitted)".  Stated over the sorted
symbol-count table; the companion theorem certifies that table's keys are
strictly sorted and its counts are the multiset multiplicities. -/
def hillSpec (syms : List String) : String :=
  let counts := syms.foldl bumpCount []
  String.join ((counts.filter fun kv => kv.1 == "C").map fmtEntry)
  ++ String.join ((counts.filter fun kv => kv.1 == "H").map fmtEntry)
  ++ String.join ((counts.filter fun kv => !(kv.1 == "C" || kv.1 == "H")).map fmtEntry)

/-- The BFS loop of `MoleculeTracker::update`, with explicit fuel.  Each
iteration pops the queue front, records the index in the component, and
pushes every in-range unvisited bond partner (marking it visited).  Fuel
equal to the atom count always suffices: an index enters the queue only when
freshly marked visited, so at most `atomCount` pops ever occur. -/
def bfsLoop (atoms : List AtomQ) (atomCount : ℕ) :
    ℕ → List Bool → List ℕ → List ℕ → List Bool × List ℕ
  | _, visited, [], acc => (visited, acc)
  | 0, visited, _, acc => (visited, acc)
  | fuel + 1, visited, cur :: qrest, acc =>
    let acc1 := acc ++ [cur]
    let vq := (atoms.getD cur adefault).bonds.foldl
      (fun (vq : List Bool × List ℕ) bond =>
        let other := bond.otherAtomIdx
        if 0 ≤ other ∧ other < (atomCount : ℤ)
            ∧ (vq.1.getD other.toNat true) = false then
          (vq.1.set other.toNat true, vq.2 ++ [other.toNat])
        else vq) (visited, qrest)
    bfsLoop atoms atomCount fuel vq.1 vq.2 acc1

/-- `MoleculeTracker::update`: recompute the connected components of the
bond graph by BFS and derive each molecule's mass, center, once-counted bond
energy sum and formula. -/
def trackerUpdate (atoms : List AtomQ) (atomCount : ℕ) : List MoleculeQ :=
  if atomCount = 0 then []
  else
    let res := (List.range atomCount).foldl
      (fun (st : List Bool × List MoleculeQ × ℤ) i =>
        if st.1.getD i true = true then st
        else
          let r := bfsLoop atoms atomCount atomCount (st.1.set i true) [i] []
          let idxs := r.2
          let totalMass := idxs.foldl
            (fun s idx => s + (atoms.getD idx adefault).mass) 0
          let spos := idxs.foldl
            (fun s idx => s + (atoms.getD idx adefault).mass
                              • (atoms.getD idx adefault).pos) (0 : Vec3)
          let com := if 0 < totalMass then ((1 : ℚ)/totalMass) • spos else spos
          let tbe := idxs.foldl (fun s idx =>
              (atoms.getD idx adefault).bonds.foldl
                (fun s2 bond => if (idx : ℤ) < bond.otherAtomIdx
                                then s2 + bond.strength else s2) s) 0
          let mol : MoleculeQ :=
            { id := st.2.2, atomIndices := idxs, totalBondEnergy := tbe
            , formula := computeFormula atoms idxs, centerOfMass := com
            , totalMass := totalMass }
          (r.1, st.2.1 ++ [mol], st.2.2 + 1))
      (List.replicate atomCount false, [], 0)
    res.2.1

/-- The state owned by `Simulation` (`simulation.h`): the atom collection,
the interaction engine, the tracker's molecule list, the box half-width and
the time/step counters. -/
structure SimState where
  atoms : List AtomQ
  engine : EngineState
  molecules : List MoleculeQ
  worldSize : ℚ
  simTime : ℚ
  stepCount : ℤ
deriving DecidableEq

/-- A freshly constructed `Simulation`. -/
def defaultSim : SimState :=
  { atoms := [], engine := defaultEngine, molecules := []
  , worldSize := 50, simTime := 0, stepCount := 0 }

/-- One velocity half-kick of the Verlet integrator
(`v += 0.5·dt·F/m`, skipped for non-positive mass). -/
def halfKick (dt : ℚ) (a : AtomQ) : AtomQ :=
  if 0 < a.mass then
    { a with vel := a.vel + (1/2 * dt * (1/a.mass)) • a.force }
  else a

/-- `Simulation::step`: early return on an empty collection; otherwise
half-kick, drift with reflective boundary, force recomputation, second
half-kick, thermostat (τ = 100), and every 10th step a bonding pass with a
molecule-tracker refresh when the net bond count changed (or on step 0);
finally advance the time and step counters. -/
def step (fn : RealFuns) (s : SimState) (dt : ℚ) : SimState :=
  if s.atoms.isEmpty = true then s
  else
    let atoms1 := s.atoms.map (halfKick dt)
    let atoms2 := atoms1.map fun a =>
      applyBoundary s.worldSize { a with pos := a.pos + dt • a.vel }
    let cf := computeForces fn { s.engine with simTime := s.simTime } atoms2
    let es2 := cf.1
    let atoms4 := cf.2.map (halfKick dt)
    let atoms5 := berendsenThermostat fn atoms4 dt es2.temperature 100
    let st :=
      if s.stepCount % 10 = 0 then
        let oldCount := es2.bondFormedCount - es2.bondBrokenCount
        let ub := updateBonds fn es2 atoms5
        let newCount := ub.1.bondFormedCount - ub.1.bondBrokenCount
        if ¬ oldCount = newCount ∨ s.stepCount = 0 then
          (ub.1, ub.2, trackerUpdate ub.2 ub.2.length)
        else (ub.1, ub.2, s.molecules)
      else (es2, atoms5, s.molecules)
    { s with atoms := st.2.1, engine := st.1, molecules := st.2.2,
             simTime := s.simTime + dt, stepCount := s.stepCount + 1 }

/-- Modelled from the spec's words (§4.5 step (5)) for comparison with the
source: a thermostat that, as the specification sentence describes, computes
the instantaneous temperature from the total kinetic energy via equipartition
(with no 1 K floor), derives `λ = sqrt(1 + (dt/τ)(Ttarget/Tcurrent − 1))`,
clamps it to `[0.9, 1.1]`, and scales every velocity — on every call with a
non-empty collection, with no condition on the target temperature. -/
def berendsenClaimed (fn : RealFuns) (atoms : List AtomQ)
    (dt targetT tau : ℚ) : List AtomQ :=
  let currentT := 2/3 * (sumKineticEnergy atoms / (atoms.length : ℚ)) / kB
  let lambda := clampQ (fn.fsqrt (1 + dt / tau * (targetT / currentT - 1)))
                  (9/10) (11/10)
  atoms.map fun a => { a with vel := lambda • a.vel }

/-!
## Concrete data for witnesses and counterexamples

The element records below stand for rows of the external JSON element table
(which is not part of the core; the engine must behave correctly for
whatever data the table supplies).  Their values are ordinary magnitudes for
the named elements, rounded to exact rationals.
-/

/-- Transcendental-function instantiation for concrete runs: `fsqrt` is the
exact rational square root (`ratSqrt`); `fexp`/`facos` are constantly `0`.
Each concrete theorem below is arranged so that every control decision that
consults `fexp` or `facos` comes out the same for the true `exp`/`acos`
(noted at the theorem). -/
def cfuns : RealFuns :=
  { fexp := fun _ => 0, fsqrt := ratSqrt, facos := fun _ => 0 }

/-- Like `cfuns` but with `fexp` constantly `1 = exp 0`; used for covalent
formation witnesses whose atoms sit exactly at the equilibrium separation,
where the source evaluates `std::exp` only at argument `0`. -/
def cfuns1 : RealFuns :=
  { fexp := fun _ => 1, fsqrt := ratSqrt, facos := fun _ => 0 }

/-- Witness-construction helper approximating `Atom::init`: identity,
element record, position, `n` opaque electrons (the claims never inspect
quantum numbers), zero charge, mass and visual radius from the element, and
a fresh effective valence. -/
def mkAtom (el : ElementData) (p : Vec3) (nElec : ℕ) : AtomQ :=
  updateEffectiveValence
    { adefault with
        elementZ := el.atomicNumber, element := el, pos := p
      , mass := el.atomicMass, electrons := List.replicate nElec default
      , visualRadius := if el.atomicRadius / 100 < 1/2 then 1/2
                        else el.atomicRadius / 100 }

/-- A lithium-like row of the element table. -/
def elLi : ElementData :=
  { eldefault with
      atomicNumber := 3, symbol := "Li", name := "Lithium", atomicMass := 7
    , electronegativity := 98/100, ionizationEnergy := 539/100
    , electronAffinity := 62/100, atomicRadius := 152, covalentRadius := 128
    , vdwRadius := 182, valenceElectrons := 1, category := "alkali_metal" }

/-- A fluorine-like row of the element table (covalent radius scaled small so
that the thermally-declined F–F covalent attempts in the `C5` scenario are
declined for the true `exp` as well as the constant-zero instantiation). -/
def elF : ElementData :=
  { eldefault with
      atomicNumber := 9, symbol := "F", name := "Fluorine", atomicMass := 19
    , electronegativity := 398/100, ionizationEnergy := 1742/100
    , electronAffinity := 34/10, atomicRadius := 42, covalentRadius := 10
    , vdwRadius := 147, valenceElectrons := 7, category := "halogen" }

/-- A sodium-like row of the element table. -/
def elNa1 : ElementData :=
  { eldefault with
      atomicNumber := 11, symbol := "Na", name := "Sodium", atomicMass := 23
    , electronegativity := 9/10, ionizationEnergy := 5
    , electronAffinity := 1/2, atomicRadius := 186, covalentRadius := 100
    , vdwRadius := 227, valenceElectrons := 1, category := "alkali_metal" }

/-- A chlorine-like row of the element table. -/
def elCl1 : ElementData :=
  { eldefault with
      atomicNumber := 17, symbol := "Cl", name := "Chlorine", atomicMass := 35
    , electronegativity := 3, ionizationEnergy := 13
    , electronAffinity := 7/2, atomicRadius := 79, covalentRadius := 100
    , vdwRadius := 175, valenceElectrons := 7, category := "halogen" }

/-- A carbon-like row with perfect-square energy products, so that the
covalent energy estimate evaluates exactly under `ratSqrt`. -/
def elC4 : ElementData :=
  { eldefault with
      atomicNumber := 6, symbol := "C", name := "Carbon", atomicMass := 12
    , electronegativity := 255/100, ionizationEnergy := 10
    , electronAffinity := 4, atomicRadius := 70, covalentRadius := 100
    , vdwRadius := 170, valenceElectrons := 4, category := "nonmetal" }

/-- Donor element for the `C2` equality counterexample: `IE = 7`. -/
def elDon2 : ElementData :=
  { eldefault with
      atomicNumber := 19, symbol := "M", name := "MetalM", atomicMass := 23
    , electronegativity := 9/10, ionizationEnergy := 7
    , electronAffinity := 1/2, covalentRadius := 100
    , valenceElectrons := 1, category := "alkali_metal" }

/-- Acceptor element for the `C2` equality counterexample: `EA = 0.6`. -/
def elAcc2 : ElementData :=
  { eldefault with
      atomicNumber := 35, symbol := "X", name := "HalogenX", atomicMass := 80
    , electronegativity := 3, ionizationEnergy := 12
    , electronAffinity := 3/5, covalentRadius := 100
    , valenceElectrons := 7, category := "halogen" }

/-- `C2` pair at separation 1 Å: `ΔE = 7 − 0.6 − 14.4 = −8` exactly. -/
def c2atoms : List AtomQ :=
  [mkAtom elDon2 ⟨0, 0, 0⟩ 1, mkAtom elAcc2 ⟨1, 0, 0⟩ 9]

/-- Engine whose temperature makes `2·kB·T` exactly `8 = |ΔE|` for
`c2atoms`. -/
def c2es : EngineState :=
  { defaultEngine with temperature := 400000000/8617 }

/-- `C5` scenario: one lithium-like donor surrounded by four
fluorine-like acceptors, all within bonding range, collinear so every
pairwise distance is an exact integer. -/
def c5atoms : List AtomQ :=
  [ mkAtom elLi ⟨0, 0, 0⟩ 3
  , mkAtom elF ⟨1, 0, 0⟩ 9
  , mkAtom elF ⟨-1, 0, 0⟩ 9
  , mkAtom elF ⟨2, 0, 0⟩ 9
  , mkAtom elF ⟨-2, 0, 0⟩ 9 ]

/-- `C1` scenario, pre-formation: the acceptor (chlorine-like, higher
electronegativity) at index 0 and the donor (sodium-like) at index 1, at
separation 2 Å = the equilibrium distance. -/
def c1atoms : List AtomQ :=
  [mkAtom elCl1 ⟨0, 0, 0⟩ 9, mkAtom elNa1 ⟨2, 0, 0⟩ 3]

/-- Covalent-formation witness pair: two carbon-like atoms exactly at their
equilibrium separation (so the overlap Gaussian is evaluated at 0). -/
def c4cov : List AtomQ :=
  [mkAtom elC4 ⟨0, 0, 0⟩ 6, mkAtom elC4 ⟨2, 0, 0⟩ 6]

/-- `C9` scenario: a single atom of mass 2 moving at unit speed, with the
temperature setpoint at 0.5 K (below the thermostat's 1 K gate). -/
def a9 : AtomQ := { mkAtom elC4 ⟨0, 0, 0⟩ 6 with vel := ⟨1, 0, 0⟩, mass := 2 }

/-- `C9` simulation state. -/
def s9 : SimState :=
  { defaultSim with atoms := [a9],
                    engine := { defaultEngine with temperature := 1/2 } }

/-- The `C9` atom as it reaches the thermostat stage of `step s9 50`:
drifted to the boundary face, force reset by the empty pairwise pass, and
kinetic energy recorded. -/
def a9pre : AtomQ := { a9 with pos := ⟨50, 0, 0⟩, kineticEnergy := 1 }

/-- Transcendental instantiation for the staged `C5` scenario: `fexp 0 = 1`
(the exact value of `exp 0`, the only argument at which the Morse energy of
the zero-width bonds below consults it) and `0` elsewhere (every other
argument fed to it in that scenario is `≤ −53`, where the true `exp` is far
below every threshold it is compared against). -/
def cfuns5 : RealFuns :=
  { fexp := fun q => if q = 0 then 1 else 0, fsqrt := ratSqrt
  , facos := fun _ => 0 }

/-- The ionic bond entry stored on the chlorine-like atom (index 0) after the
`c1atoms` formation pass. -/
def c1bondCl : Bond :=
  { otherAtomIdx := 1, btype := .ionic, order := 1, strength := 57/10
  , equilibriumDist := 2, morseAlpha := 0 }

/-- The mirrored entry stored on the sodium-like atom (index 1). -/
def c1bondNa : Bond :=
  { otherAtomIdx := 0, btype := .ionic, order := 1, strength := 57/10
  , equilibriumDist := 2, morseAlpha := 0 }

/-- Engine state after the `c1atoms` formation pass. -/
def c1es1 : EngineState :=
  { defaultEngine with
      totalBondE := 57/10
      , bondFormedCount := 1
      , reactionLog := [⟨0, .ionicFormed "Na" "Cl" (57/10)⟩] }

/-- Atom collection after the `c1atoms` formation pass: the chlorine-like
atom (index 0) holds the transferred electron and charge −1; the sodium-like
atom (index 1) lost one electron and holds charge +1. -/
def c1s1 : List AtomQ :=
  [ { mkAtom elCl1 ⟨0, 0, 0⟩ 9 with
        electrons := List.replicate 10 default, charge := -1
      , effectiveValence := 6, bonds := [c1bondCl] }
  , { mkAtom elNa1 ⟨2, 0, 0⟩ 3 with
        electrons := List.replicate 2 default, charge := 1
      , effectiveValence := 0, bonds := [c1bondNa] } ]

/-- `c1s1` with the sodium-like ion moved out to 8 Å (as the integrator
would after the ions drift apart), far past both the 2.5×-equilibrium break
threshold and the bonding range. -/
def c1far : List AtomQ :=
  modifyAtom c1s1 1 fun a => { a with pos := ⟨8, 0, 0⟩ }

/-- Bond entry on the lithium-like donor toward acceptor `k` in the `C5`
scenario. -/
def c5bondLi (k : ℤ) (st : ℚ) : Bond :=
  { otherAtomIdx := k, btype := .ionic, order := 1, strength := st
  , equilibriumDist := 69/50, morseAlpha := 0 }

/-- Mirrored bond entry on a fluorine-like acceptor in the `C5` scenario. -/
def c5bondF (st : ℚ) : Bond :=
  { otherAtomIdx := 0, btype := .ionic, order := 1, strength := st
  , equilibriumDist := 69/50, morseAlpha := 0 }

/-- A fluorine-like acceptor after receiving one electron from the donor. -/
def c5fBonded (p : Vec3) (st : ℚ) : AtomQ :=
  { mkAtom elF p 9 with
      electrons := List.replicate 10 default, charge := -1
    , effectiveValence := 6, bonds := [c5bondF st] }

/-- Engine state after the first `C5` bonding pass (one ionic bond). -/
def c5esA : EngineState :=
  { defaultEngine with
      totalBondE := 1241/100
      , bondFormedCount := 1
      , reactionLog := [⟨0, .ionicFormed "Li" "F" (1241/100)⟩] }

/-- Atom collection after the first `C5` bonding pass. -/
def c5sA : List AtomQ :=
  [ { mkAtom elLi ⟨0, 0, 0⟩ 3 with
        electrons := List.replicate 2 default, charge := 1
      , effectiveValence := 0, bonds := [c5bondLi 1 (1241/100)] }
  , c5fBonded ⟨1, 0, 0⟩ (1241/100) ]

/-- Engine state after the second `C5` bonding pass (two ionic bonds). -/
def c5esB : EngineState :=
  { defaultEngine with
      totalBondE := 1241/50
      , bondFormedCount := 2
      , reactionLog := [⟨0, .ionicFormed "Li" "F" (1241/100)⟩,
                        ⟨0, .ionicFormed "Li" "F" (1241/100)⟩] }

/-- Atom collection after the second `C5` bonding pass: the donor is down to
one electron at charge +2. -/
def c5sB : List AtomQ :=
  [ { mkAtom elLi ⟨0, 0, 0⟩ 3 with
        electrons := List.replicate 1 default, charge := 2
      , effectiveValence := 0
      , bonds := [c5bondLi 1 (1241/100), c5bondLi 2 (1241/100)] }
  , c5fBonded ⟨1, 0, 0⟩ (1241/100)
  , c5fBonded ⟨-1, 0, 0⟩ (1241/100) ]

/-- Engine state after the third `C5` bonding pass (three ionic bonds). -/
def c5esC : EngineState :=
  { defaultEngine with
      totalBondE := 3003/100
      , bondFormedCount := 3
      , reactionLog := [⟨0, .ionicFormed "Li" "F" (1241/100)⟩,
                        ⟨0, .ionicFormed "Li" "F" (1241/100)⟩,
                        ⟨0, .ionicFormed "Li" "F" (521/100)⟩] }

/-- Atom collection after the third `C5` bonding pass: the donor has **no
electrons left** (charge +3) while `wantsToLoseElectron` still holds of its
static element data. -/
def c5sC : List AtomQ :=
  [ { mkAtom elLi ⟨0, 0, 0⟩ 3 with
        electrons := [], charge := 3, effectiveValence := 0
      , bonds := [ c5bondLi 1 (1241/100), c5bondLi 2 (1241/100)
                 , c5bondLi 3 (521/100) ] }
  , c5fBonded ⟨1, 0, 0⟩ (1241/100)
  , c5fBonded ⟨-1, 0, 0⟩ (1241/100)
  , c5fBonded ⟨2, 0, 0⟩ (521/100) ]

/-- A hydrogen-like row of the element table. -/
def elH : ElementData :=
  { eldefault with
      atomicNumber := 1, symbol := "H", name := "Hydrogen", atomicMass := 1
    , electronegativity := 22/10, ionizationEnergy := 136/10
    , electronAffinity := 3/4, atomicRadius := 53, covalentRadius := 31
    , vdwRadius := 120, valenceElectrons := 1, category := "nonmetal" }

/-- An oxygen-like row of the element table. -/
def elO : ElementData :=
  { eldefault with
      atomicNumber := 8, symbol := "O", name := "Oxygen", atomicMass := 16
    , electronegativity := 344/100, ionizationEnergy := 1362/100
    , electronAffinity := 146/100, atomicRadius := 48, covalentRadius := 66
    , vdwRadius := 152, valenceElectrons := 6, category := "nonmetal" }

/-- Three carbons and eight hydrogens (a propane-shaped molecule's atoms). -/
def c8propane : List AtomQ :=
  List.replicate 3 (mkAtom elC4 0 6) ++ List.replicate 8 (mkAtom elH 0 1)

/-- Two hydrogens and one oxygen. -/
def c8water : List AtomQ :=
  [mkAtom elH 0 1, mkAtom elH 0 1, mkAtom elO 0 8]

/-- One sodium and one chlorine. -/
def c8salt : List AtomQ := [mkAtom elNa1 0 11, mkAtom elCl1 0 17]

/-- Two bond entries mirror one another across the pair `(i, j)`: the
reverse entry points back at `i` and carries the same strength, equilibrium
distance, order and type. -/
def mirrors (i : ℕ) (b bp : Bond) : Prop :=
  bp.otherAtomIdx = (i : ℤ) ∧ bp.strength = b.strength
  ∧ bp.equilibriumDist = b.equilibriumDist ∧ bp.order = b.order
  ∧ bp.btype = b.btype

/-- The bond list of atom `i`. -/
def bondsAt (s : List AtomQ) (i : ℕ) : List Bond := (s.getD i adefault).bonds

/-- Well-formedness of the bond graph, the invariant every reachable atom
collection satisfies and that `updateBonds` must preserve: every bond entry
targets a distinct in-range partner other than its owner, and has a mirrored
entry (equal strength, equilibrium distance, order and type) in the
partner's list.  The mirror clause is the bond-symmetry property of the
specification; the distinctness/range/no-self clauses record that the
bonding state machine only ever creates one bond per unordered pair of
distinct atoms. -/
def WFbonds (s : List AtomQ) : Prop :=
  ∀ i, i < s.length →
    ((bondsAt s i).map Bond.otherAtomIdx).Nodup ∧
    ∀ b ∈ bondsAt s i,
      0 ≤ b.otherAtomIdx ∧ b.otherAtomIdx < (s.length : ℤ)
      ∧ ¬ b.otherAtomIdx = (i : ℤ)
      ∧ ∃ bp ∈ bondsAt s b.otherAtomIdx.toNat, mirrors i b bp

/-- The cached effective valence of an atom agrees with its recomputation
from current state (`max 0 (valence − Σ bond.order)`). -/
def valenceFresh (a : AtomQ) : Prop :=
  a.effectiveValence = availableValenceElectrons a

instance valenceFresh.instDecidable (a : AtomQ) : Decidable (valenceFresh a) :=
  inferInstanceAs (Decidable (_ = _))

instance mirrors.instDecidable (i : ℕ) (b bp : Bond) :
    Decidable (mirrors i b bp) :=
  inferInstanceAs (Decidable (_ ∧ _))

instance WFbonds.instDecidable (s : List AtomQ) : Decidable (WFbonds s) := by
  unfold WFbonds
  infer_instance

/-- The vector sum of all force accumulators. -/
def sumForce (l : List AtomQ) : Vec3 := (l.map AtomQ.force).sum

/-- Engine state after the `c1far` breaking pass: the bond energy was
debited back and the break logged, but — because the atom scanned first
(index 0) holds the *negative* charge — no electron was returned. -/
def c1es2 : EngineState :=
  { defaultEngine with
      totalBondE := 0
      , bondFormedCount := 1
      , bondBrokenCount := 1
      , reactionLog := [ ⟨0, .ionicFormed "Na" "Cl" (57/10)⟩
                       , ⟨0, .bondBroken "Cl" "Na" 300⟩ ] }

/-- Atom collection after the `c1far` breaking pass: both bond lists empty,
charges still −1/+1, electron counts unchanged. -/
def c1s2 : List AtomQ :=
  [ { mkAtom elCl1 ⟨0, 0, 0⟩ 9 with
        electrons := List.replicate 10 default, charge := -1
      , effectiveValence := 7, bonds := [] }
  , { mkAtom elNa1 ⟨8, 0, 0⟩ 3 with
        electrons := List.replicate 2 default, charge := 1
      , effectiveValence := 1, bonds := [] } ]

/-- The two-atom `C5` starting collection (donor plus first acceptor). -/
def c5s0 : List AtomQ := [mkAtom elLi ⟨0, 0, 0⟩ 3, mkAtom elF ⟨1, 0, 0⟩ 9]

/-- The second `C5` acceptor. -/
def f2at : AtomQ := mkAtom elF ⟨-1, 0, 0⟩ 9

/-- The third `C5` acceptor. -/
def f3at : AtomQ := mkAtom elF ⟨2, 0, 0⟩ 9

/-- The fourth `C5` acceptor. -/
def f4at : AtomQ := mkAtom elF ⟨-2, 0, 0⟩ 9

/-- Input collection of the second `C5` bonding pass. -/
def sInB : List AtomQ := c5sA ++ [f2at]

/-- Input collection of the third `C5` bonding pass. -/
def sInC : List AtomQ := c5sB ++ [f3at]

/-- Input collection of the fourth `C5` bonding pass. -/
def sInD : List AtomQ := c5sC ++ [f4at]

/-- `C1` witness pair with the positive ion at index 0: a sodium-like +1
ion holding the ionic bond entry toward index 1, and a chlorine-like −1 ion
at 8 Å holding the mirrored entry and ten electrons. -/
def c1wNa : AtomQ :=
  { mkAtom elNa1 ⟨0, 0, 0⟩ 3 with
      electrons := List.replicate 2 default, charge := 1
    , effectiveValence := 0, bonds := [c1bondCl] }

/-- The chlorine-like −1 partner of `c1wNa`, at index 1. -/
def c1wCl : AtomQ :=
  { mkAtom elCl1 ⟨8, 0, 0⟩ 9 with
      electrons := List.replicate 10 default, charge := -1
    , effectiveValence := 6, bonds := [c1bondNa] }

/-!
## Component lemmas
-/

@[simp] theorem Vec3.zero_x : (0 : Vec3).x = 0 := rfl
@[simp] theorem Vec3.zero_y : (0 : Vec3).y = 0 := rfl
@[simp] theorem Vec3.zero_z : (0 : Vec3).z = 0 := rfl
@[simp] theorem Vec3.add_x (a b : Vec3) : (a + b).x = a.x + b.x := rfl
@[simp] theorem Vec3.add_y (a b : Vec3) : (a + b).y = a.y + b.y := rfl
@[simp] theorem Vec3.add_z (a b : Vec3) : (a + b).z = a.z + b.z := rfl
@[simp] theorem Vec3.neg_x (a : Vec3) : (-a).x = -a.x := rfl
@[simp] theorem Vec3.neg_y (a : Vec3) : (-a).y = -a.y := rfl
@[simp] theorem Vec3.neg_z (a : Vec3) : (-a).z = -a.z := rfl
@[simp] theorem Vec3.sub_x (a b : Vec3) : (a - b).x = a.x - b.x := rfl
@[simp] theorem Vec3.sub_y (a b : Vec3) : (a - b).y = a.y - b.y := rfl
@[simp] theorem Vec3.sub_z (a b : Vec3) : (a - b).z = a.z - b.z := rfl
@[simp] theorem Vec3.smul_x (q : ℚ) (a : Vec3) : (q • a).x = q * a.x := rfl
@[simp] theorem Vec3.smul_y (q : ℚ) (a : Vec3) : (q • a).y = q * a.y := rfl
@[simp] theorem Vec3.smul_z (q : ℚ) (a : Vec3) : (q • a).z = q * a.z := rfl

/-!
## Claim theorems
-/

/-- **C10**: calling `Simulation::step` with an empty atom collection is a
complete no-op for every `dt`: no forces are computed, no bonding pass runs,
and the whole state — atoms, engine counters and reaction log, molecule
list, `simTime` and `stepCount` — is returned unchanged. -/
theorem step_empty_is_noop (fn : RealFuns) (s : SimState) (dt : ℚ)
    (h : s.atoms = []) : step fn s dt = s := by
  unfold step
  rw [h]
  rfl

/-- Witness for `step_empty_is_noop` at the freshly constructed (empty)
simulation with `dt = 1`. -/
theorem step_empty_is_noop_witness : step cfuns defaultSim 1 = defaultSim :=
  step_empty_is_noop cfuns defaultSim 1 rfl

/-- The exact acceptance condition of `InteractionEngine::tryIonicBond`:
a bond is formed iff the donor wants to lose an electron, the acceptor
wants one, the Born–Haber balance is non-positive, and its magnitude is at
least (not strictly above) twice the thermal energy. -/
theorem tryIonicBond_formed_iff (fn : RealFuns) (es : EngineState)
    (atoms : List AtomQ) (i j : ℕ) :
    (tryIonicBond fn es atoms i j).1 = true ↔
      (wantsToLoseElectron (atoms.getD (ionicDonorIdx atoms i j) adefault) = true
       ∧ wantsElectron (atoms.getD (ionicAccIdx atoms i j) adefault) = true
       ∧ ionicDeltaE fn atoms i j ≤ 0
       ∧ kB * es.temperature * 2 ≤ |ionicDeltaE fn atoms i j|) := by
  simp only [tryIonicBond]
  split_ifs with h1 h2 h3 h4
  · simp only [Bool.false_eq_true, false_iff]
    rintro ⟨hw, -, -, -⟩
    rw [h1] at hw
    cases hw
  · simp only [Bool.false_eq_true, false_iff]
    rintro ⟨-, hw, -, -⟩
    rw [h2] at hw
    cases hw
  · simp only [Bool.false_eq_true, false_iff]
    rintro ⟨-, -, hle, -⟩
    exact absurd h3 (not_lt.mpr hle)
  · simp only [Bool.false_eq_true, false_iff]
    rintro ⟨-, -, -, hge⟩
    exact absurd h4 (not_lt.mpr hge)
  · simp only [true_iff]
    refine ⟨?_, ?_, not_lt.mp h3, not_lt.mp ?_⟩
    · cases h : wantsToLoseElectron (atoms.getD (ionicDonorIdx atoms i j) adefault)
      · exact absurd h h1
      · rfl
    · cases h : wantsElectron (atoms.getD (ionicAccIdx atoms i j) adefault)
      · exact absurd h h2
      · rfl
    · intro hlt
      exact h4 (by linarith [hlt])

/-- The exact acceptance condition of `InteractionEngine::tryCovalentBond`:
a bond is formed iff both atoms have available valence electrons and the
overlap-weighted bond energy is at least three times the thermal energy. -/
theorem tryCovalentBond_formed_iff (fn : RealFuns) (es : EngineState)
    (atoms : List AtomQ) (i j : ℕ) :
    (tryCovalentBond fn es atoms i j).1 = true ↔
      (0 < availableValenceElectrons (atoms.getD i adefault)
       ∧ 0 < availableValenceElectrons (atoms.getD j adefault)
       ∧ kB * es.temperature * 3 ≤ covalentBondEnergy fn atoms i j) := by
  simp only [tryCovalentBond]
  split_ifs with h1 h2
  · simp only [Bool.false_eq_true, false_iff]
    rintro ⟨hA, hB, -⟩
    rcases h1 with h | h
    · exact absurd hA (not_lt.mpr h)
    · exact absurd hB (not_lt.mpr h)
  · simp only [Bool.false_eq_true, false_iff]
    rintro ⟨-, -, hge⟩
    exact absurd h2 (not_lt.mpr hge)
  · push_neg at h1
    simp only [true_iff]
    exact ⟨h1.1, h1.2, not_lt.mp (by simpa using h2)⟩

/-- **C2** counterexample: the thermal-stability check is not strict.  For
the pair `c2atoms` routed to an ionic attempt at temperature
`T = 4·10⁸/8617 > 0`, the Born–Haber balance satisfies `|ΔE| = 2·kB·T`
exactly (8 eV on both sides) — so per the claim no bond should form — yet
`tryIonicBond` forms the bond: the source rejects only when
`|ΔE| < 2·kB·T` (`interaction.cpp:223`), so exact equality passes. -/
theorem ionic_thermal_equality_bonds_cex :
    (tryIonicBond cfuns c2es c2atoms 0 1).1 = true
    ∧ |ionicDeltaE cfuns c2atoms 0 1| = kB * c2es.temperature * 2
    ∧ 0 < c2es.temperature := by
  refine ⟨?_, ?_, ?_⟩ <;> with_unfolding_all decide

/-- **C2** (amended): for every pair routed to an ionic attempt, a bond is
formed only if `ΔE ≤ 0` and `|ΔE|` is at least — not strictly above — twice
the thermal energy `kB·T`; a pair with `|ΔE|` exactly equal to `2·kB·T`
passes the thermal check. -/
theorem tryIonicBond_formed_energy (fn : RealFuns) (es : EngineState)
    (atoms : List AtomQ) (i j : ℕ)
    (h : (tryIonicBond fn es atoms i j).1 = true) :
    ionicDeltaE fn atoms i j ≤ 0
    ∧ kB * es.temperature * 2 ≤ |ionicDeltaE fn atoms i j| := by
  have hc := (tryIonicBond_formed_iff fn es atoms i j).mp h
  exact ⟨hc.2.2.1, hc.2.2.2⟩

/-- Witness for `tryIonicBond_formed_energy` at the forming pair
`c2atoms`. -/
theorem tryIonicBond_formed_energy_witness :
    ionicDeltaE cfuns c2atoms 0 1 ≤ 0
    ∧ kB * c2es.temperature * 2 ≤ |ionicDeltaE cfuns c2atoms 0 1| :=
  tryIonicBond_formed_energy cfuns c2es c2atoms 0 1
    (by with_unfolding_all decide)

/-- **C4** counterexample: immediately after `tryIonicBond` returns from a
successful formation, the donor's cached `effectiveValence` is stale: it
still reads 1 (computed during the electron transfer, before the bond was
pushed) while a recomputation from the bond list yields 0.  Unlike
`tryCovalentBond`, the ionic path never calls `updateEffectiveValence`
after pushing the bonds ( `interaction.cpp:225-244`); the cache is only
repaired by the sweep at the end of `updateBonds`. -/
theorem ionic_formation_stale_valence_cex :
    (tryIonicBond cfuns c2es c2atoms 0 1).1 = true
    ∧ ((tryIonicBond cfuns c2es c2atoms 0 1).2.2.getD 0 adefault).effectiveValence = 1
    ∧ availableValenceElectrons
        ((tryIonicBond cfuns c2es c2atoms 0 1).2.2.getD 0 adefault) = 0 := by
  refine ⟨?_, ?_, ?_⟩ <;> with_unfolding_all decide

/-- **C4** (amended): the valence invariant
`effectiveValence = max 0 (valence − Σ order)` holds for every atom after
`updateBonds` returns (its final sweep recomputes all of them), and holds
immediately after `addElectron`, `removeOuterElectron` and covalent
formation return; ionic formation (and bond breaking) may leave it stale
until the end of the running `updateBonds` pass. -/
theorem valence_invariant_after_mutators :
    (∀ (fn : RealFuns) (es : EngineState) (atoms : List AtomQ),
      ∀ a ∈ (updateBonds fn es atoms).2, valenceFresh a)
    ∧ (∀ (a : AtomQ) (e : Electron), valenceFresh (addElectron a e))
    ∧ (∀ a : AtomQ, valenceFresh (removeOuterElectron a).2)
    ∧ (∀ (fn : RealFuns) (es : EngineState) (atoms : List AtomQ) (i j : ℕ),
        (∀ a ∈ atoms, valenceFresh a) →
        ∀ a ∈ (tryCovalentBond fn es atoms i j).2.2, valenceFresh a) := by
  refine ⟨?_, ?_, ?_, ?_⟩
  · intro fn es atoms a ha
    unfold updateBonds at ha
    simp only [List.mem_map] at ha
    obtain ⟨b, -, rfl⟩ := ha
    rfl
  · intro a e
    rfl
  · intro a
    rfl
  · intro fn es atoms i j hInv a ha
    simp only [tryCovalentBond] at ha
    split_ifs at ha
    · exact hInv a ha
    · exact hInv a ha
    · rcases List.mem_or_eq_of_mem_set ha with ha1 | rfl
      · rcases List.mem_or_eq_of_mem_set ha1 with ha2 | rfl
        · exact hInv a ha2
        · rfl
      · rfl

/-- Witness for `valence_invariant_after_mutators`: the covalent-formation
conjunct at the concrete forming pair `c4cov` (hypothesis discharged by
evaluation) and the `updateBonds` conjunct at the concrete run on
`c1atoms`. -/
theorem valence_invariant_after_mutators_witness :
    valenceFresh ((tryCovalentBond cfuns1 defaultEngine c4cov 0 1).2.2.getD 0 adefault)
    ∧ valenceFresh ((updateBonds cfuns defaultEngine c1atoms).2.getD 0 adefault) :=
  ⟨valence_invariant_after_mutators.2.2.2 cfuns1 defaultEngine c4cov 0 1
      (by with_unfolding_all decide) _ (by with_unfolding_all decide),
   valence_invariant_after_mutators.1 cfuns defaultEngine c1atoms _
      (by with_unfolding_all decide)⟩

/-- **C6**: the thermal-stability gate only rejects, never approves.  For a
fixed atom state, if a bond-formation attempt (ionic or covalent) is
declined at temperature `T ≥ 0`, it is also declined at every `T' ≥ T`:
every non-thermal criterion is temperature-independent, and the thermal
thresholds `2·kB·T` (ionic) and `3·kB·T` (covalent) grow with `T`. -/
theorem thermal_gate_only_rejects (fn : RealFuns) (es : EngineState)
    (atoms : List AtomQ) (i j : ℕ) (T Tp : ℚ) (h0 : 0 ≤ T) (hT : T ≤ Tp) :
    ((tryIonicBond fn { es with temperature := T } atoms i j).1 = false →
      (tryIonicBond fn { es with temperature := Tp } atoms i j).1 = false)
    ∧ ((tryCovalentBond fn { es with temperature := T } atoms i j).1 = false →
      (tryCovalentBond fn { es with temperature := Tp } atoms i j).1 = false) := by
  have hk : (0 : ℚ) < kB := by norm_num [kB]
  have hmul2 : kB * T * 2 ≤ kB * Tp * 2 := by nlinarith
  have hmul3 : kB * T * 3 ≤ kB * Tp * 3 := by nlinarith
  constructor
  · intro h
    cases hf : (tryIonicBond fn { es with temperature := Tp } atoms i j).1
    · rfl
    · exfalso
      have hc := (tryIonicBond_formed_iff fn { es with temperature := Tp }
        atoms i j).mp hf
      have hT2 : kB * T * 2 ≤ |ionicDeltaE fn atoms i j| :=
        le_trans hmul2 hc.2.2.2
      have : (tryIonicBond fn { es with temperature := T } atoms i j).1 = true :=
        (tryIonicBond_formed_iff fn { es with temperature := T } atoms i j).mpr
          ⟨hc.1, hc.2.1, hc.2.2.1, hT2⟩
      rw [h] at this
      cases this
  · intro h
    cases hf : (tryCovalentBond fn { es with temperature := Tp } atoms i j).1
    · rfl
    · exfalso
      have hc := (tryCovalentBond_formed_iff fn { es with temperature := Tp }
        atoms i j).mp hf
      have hT3 : kB * T * 3 ≤ covalentBondEnergy fn atoms i j :=
        le_trans hmul3 hc.2.2
      have : (tryCovalentBond fn { es with temperature := T } atoms i j).1 = true :=
        (tryCovalentBond_formed_iff fn { es with temperature := T } atoms i j).mpr
          ⟨hc.1, hc.2.1, hT3⟩
      rw [h] at this
      cases this

/-- Witness for `thermal_gate_only_rejects`: the `c2atoms` pair is declined
at `T = 10⁹` (thermal reject: `|ΔE| = 8 < 2·kB·10⁹`) and, by the theorem,
stays declined at `T' = 2·10⁹`; its covalent attempt is declined at both
temperatures as well. -/
theorem thermal_gate_only_rejects_witness :
    (tryIonicBond cfuns { defaultEngine with temperature := 2000000000 }
      c2atoms 0 1).1 = false
    ∧ (tryCovalentBond cfuns { defaultEngine with temperature := 2000000000 }
      c2atoms 0 1).1 = false :=
  ⟨(thermal_gate_only_rejects cfuns defaultEngine c2atoms 0 1
      1000000000 2000000000 (by norm_num) (by norm_num)).1
      (by with_unfolding_all decide),
   (thermal_gate_only_rejects cfuns defaultEngine c2atoms 0 1
      1000000000 2000000000 (by norm_num) (by norm_num)).2
      (by with_unfolding_all decide)⟩

set_option maxRecDepth 1000000 in
/-- **C9** counterexample: the thermostat is *not* applied on every step
with a non-empty collection.  With the temperature setpoint at 0.5 K, the
claimed scale factor for the single atom reaching the thermostat stage of
`step s9 50` is `λ = 0.9` (the raw factor `sqrt(1/2 + 25851/16·10⁸)` lies
below the 0.9 clamp for any square root consistent with the real one, since
its argument is below 0.81), so the claim predicts the velocity
`(0.9, 0, 0)` — but `Simulation::berendsenThermostat` returns immediately
whenever `targetT < 1.0f` (`simulation.cpp:36`) and the velocity survives
as `(1, 0, 0)`. -/
theorem thermostat_not_applied_every_step_cex :
    ((step cfuns s9 50).atoms.getD 0 adefault).vel = ⟨1, 0, 0⟩
    ∧ berendsenThermostat cfuns [a9pre] 50 (1/2) 100 = [a9pre]
    ∧ (berendsenClaimed cfuns [a9pre] 50 (1/2) 100).getD 0 adefault
        = { a9pre with vel := ⟨9/10, 0, 0⟩ }
    ∧ a9pre.vel = ⟨1, 0, 0⟩
    ∧ ¬ (⟨1, 0, 0⟩ : Vec3) = ⟨9/10, 0, 0⟩ := by
  refine ⟨?_, ?_, ?_, ?_, ?_⟩
  · with_unfolding_all rfl
  · with_unfolding_all rfl
  · with_unfolding_all rfl
  · with_unfolding_all rfl
  · with_unfolding_all decide

/-- **C9** (amended): whenever the atom collection is non-empty *and the
target temperature is at least 1 K*, the thermostat computes the
instantaneous temperature by equipartition, **floors it at 1 K**, forms
`λ = sqrt(1 + (dt/τ)(Ttarget/Tcurrent − 1))` clamped to `[0.9, 1.1]`, and
multiplies every atom's velocity by that same `λ`. -/
theorem thermostat_applies_when_enabled (fn : RealFuns) (atoms : List AtomQ)
    (dt targetT tau : ℚ) (h1 : atoms ≠ []) (h2 : 1 ≤ targetT) :
    berendsenThermostat fn atoms dt targetT tau =
      atoms.map (fun a =>
        { a with vel :=
            clampQ (fn.fsqrt (1 + dt / tau * (targetT /
                (max 1 (2/3 * (sumKineticEnergy atoms / (atoms.length : ℚ)) / kB))
              - 1))) (9/10) (11/10) • a.vel }) := by
  have hgate : ¬ (atoms.isEmpty = true ∨ targetT < 1) := by
    rintro (he | ht)
    · exact h1 (List.isEmpty_iff.mp he)
    · exact absurd h2 (not_le.mpr ht)
  rcases lt_or_le (2/3 * (sumKineticEnergy atoms / (atoms.length : ℚ)) / kB) 1
    with hc | hc
  · rw [max_eq_left hc.le]
    simp only [berendsenThermostat, if_neg hgate, if_pos hc]
  · have hc' : ¬ (2/3 * (sumKineticEnergy atoms / (atoms.length : ℚ)) / kB < 1) :=
      not_lt.mpr hc
    rw [max_eq_right hc]
    simp only [berendsenThermostat, if_neg hgate, if_neg hc']

/-- Witness for `thermostat_applies_when_enabled` at a single atom with the
default 300 K setpoint. -/
theorem thermostat_applies_when_enabled_witness :
    berendsenThermostat cfuns [a9] 50 300 100 =
      [a9].map (fun a =>
        { a with vel :=
            clampQ (cfuns.fsqrt (1 + 50 / 100 * (300 /
                (max 1 (2/3 * (sumKineticEnergy [a9] / (([a9] : List AtomQ).length : ℚ)) / kB))
              - 1))) (9/10) (11/10) • a.vel }) :=
  thermostat_applies_when_enabled cfuns [a9] 50 300 100
    (by simp) (by norm_num)

set_option maxRecDepth 1000000 in
/-- **C5** (the code violates the caller obligation): the ionic-formation
path of the bonding state machine calls `removeOuterElectron` on a donor
with **no electrons left**, because `wantsToLoseElectron` consults only
static element data (ionization energy, valence count), never the live
electron list.  Staged scenario (each stage is one `updateBonds` pass, as
after each spawn): a lithium-like donor among four fluorine-like acceptors
donates its three electrons in the first three passes; in the fourth pass
the routing still sends the pair `(donor, F₄)` to `tryIonicBond`, all its
checks still pass, and the transfer pops the empty electron vector — in the
source an out-of-bounds `std::vector::back()` (undefined behaviour),
recorded here by the ghost flag. -/
theorem ionic_drain_pops_empty_electron_list :
    updateBonds cfuns5 defaultEngine c5s0 = (c5esA, c5sA)
    ∧ updateBonds cfuns5 c5esA sInB = (c5esB, c5sB)
    ∧ updateBonds cfuns5 c5esB sInC = (c5esC, c5sC)
    ∧ (c5sC.getD 0 adefault).electrons = []
    ∧ wantsToLoseElectron (c5sC.getD 0 adefault) = true
    ∧ c5esC.ghostEmptyPop = false
    ∧ (updateBonds cfuns5 c5esC sInD).1.ghostEmptyPop = true := by
  refine ⟨?_, ?_, ?_, ?_, ?_, ?_, ?_⟩ <;> with_unfolding_all rfl

set_option maxRecDepth 1000000 in
/-- **C1** counterexample: breaking an ionic bond does *not* return the
electron when the formerly-positive atom has the larger index.  First pass:
the `c1atoms` pair (chlorine-like acceptor at index 0, sodium-like donor at
index 1) forms an ionic bond, moving one electron from index 1 (now +1) to
index 0 (now −1).  The ions then drift to 8 Å (`c1far`): past the
2.5×-equilibrium break threshold, with the formerly-positive atom still at
+1 and the formerly-negative atom holding 10 electrons — so per the claim
the break must move one electron back.  The second pass does break the bond
(both mirrored entries removed), but returns no electron: charges remain
−1/+1 and both electron counts are unchanged, because the source's
restoration check reads `atoms[i].charge > 0` for the *smaller-index* atom
of the pair (`interaction.cpp:357`), here the negative ion. -/
theorem ionic_break_no_return_higher_index_cex :
    updateBonds cfuns defaultEngine c1atoms = (c1es1, c1s1)
    ∧ (c1s1.getD 0 adefault).charge = -1
    ∧ (c1s1.getD 1 adefault).charge = 1
    ∧ (c1far.getD 1 adefault).charge = 1
    ∧ (c1far.getD 0 adefault).electrons.length = 10
    ∧ (c1far.getD 0 adefault).bonds.map Bond.btype = [.ionic]
    ∧ updateBonds cfuns c1es1 c1far = (c1es2, c1s2)
    ∧ (c1s2.getD 0 adefault).bonds = []
    ∧ (c1s2.getD 1 adefault).bonds = []
    ∧ (c1s2.getD 0 adefault).charge = -1
    ∧ (c1s2.getD 1 adefault).charge = 1
    ∧ (c1s2.getD 0 adefault).electrons.length = 10
    ∧ (c1s2.getD 1 adefault).electrons.length = 2 := by
  refine ⟨?_, ?_, ?_, ?_, ?_, ?_, ?_, ?_, ?_, ?_, ?_, ?_, ?_⟩ <;>
    with_unfolding_all rfl

/-- **C1** (amended): the electron *is* returned when the formerly-positive
atom is the smaller-index atom of the pair.  For every two-atom collection
whose atoms hold exactly the mirrored entries of one ionic bond, if the
break test fires at the current separation, the index-0 atom still holds
positive charge, the index-1 atom has at least one electron, and the pair is
out of bonding range (so the formation pass leaves the result alone), then
`updateBonds` removes both bond entries and moves exactly one electron —
the last of the index-1 atom's list — back to the index-0 atom, decrementing
its charge by 1 and incrementing the partner's by 1. -/
theorem break_returns_electron_to_lower_index (fn : RealFuns) (es : EngineState)
    (a0 a1 : AtomQ) (b0 b1 : Bond)
    (h0 : a0.bonds = [b0]) (h1 : a1.bonds = [b1])
    (ht0 : b0.otherAtomIdx = 1) (ht1 : b1.otherAtomIdx = 0)
    (hty : b0.btype = .ionic)
    (hbrk : shouldBreakBond fn es b0 (vlen fn (a0.pos - a1.pos)) = true)
    (hchg : 0 < a0.charge)
    (hne : a1.electrons ≠ [])
    (hfar : es.bondingRange < vlen fn (a0.pos - a1.pos)) :
    ((updateBonds fn es [a0, a1]).2.getD 0 adefault).charge = a0.charge - 1
    ∧ ((updateBonds fn es [a0, a1]).2.getD 0 adefault).electrons
        = a0.electrons ++ [a1.electrons.getLastD default]
    ∧ ((updateBonds fn es [a0, a1]).2.getD 0 adefault).bonds = []
    ∧ ((updateBonds fn es [a0, a1]).2.getD 1 adefault).charge = a1.charge + 1
    ∧ ((updateBonds fn es [a0, a1]).2.getD 1 adefault).electrons
        = a1.electrons.dropLast
    ∧ ((updateBonds fn es [a0, a1]).2.getD 1 adefault).bonds = [] := by
  have hne' : a1.electrons.isEmpty = false := by simpa using hne
  have hto : b0.otherAtomIdx.toNat = 1 := by rw [ht0]; rfl
  have hguard : ¬ (b0.otherAtomIdx < 0 ∨ ((2 : ℕ) : ℤ) ≤ b0.otherAtomIdx) := by
    rw [ht0]; omega
  have hrange : List.range 2 = [0, 1] := rfl
  simp [updateBonds, phase1Step, breakLoop, pairBondStep, modifyAtom, setBonds,
    addElectron, removeOuterElectron, updateEffectiveValence, pairsLt, hrange,
    List.foldl_cons, List.foldl_nil, List.flatMap_cons, List.flatMap_nil,
    h0, h1, ht0, ht1, hto, hty, hbrk, hchg, hne', hguard, hfar]

/-- Closed instance of `break_returns_electron_to_lower_index` at the
`c1wNa`/`c1wCl` pair: the break returns the electron, leaving both ions
neutral with 3 and 9 electrons. -/
theorem break_returns_electron_to_lower_index_witness :
    ((updateBonds cfuns defaultEngine [c1wNa, c1wCl]).2.getD 0 adefault).charge
        = c1wNa.charge - 1
    ∧ ((updateBonds cfuns defaultEngine [c1wNa, c1wCl]).2.getD 0
          adefault).electrons
        = c1wNa.electrons ++ [c1wCl.electrons.getLastD default]
    ∧ ((updateBonds cfuns defaultEngine [c1wNa, c1wCl]).2.getD 0
          adefault).bonds = []
    ∧ ((updateBonds cfuns defaultEngine [c1wNa, c1wCl]).2.getD 1
          adefault).charge = c1wCl.charge + 1
    ∧ ((updateBonds cfuns defaultEngine [c1wNa, c1wCl]).2.getD 1
          adefault).electrons = c1wCl.electrons.dropLast
    ∧ ((updateBonds cfuns defaultEngine [c1wNa, c1wCl]).2.getD 1
          adefault).bonds = [] :=
  break_returns_electron_to_lower_index cfuns defaultEngine c1wNa c1wCl
    c1bondCl c1bondNa rfl rfl rfl rfl rfl
    (by with_unfolding_all rfl) (by with_unfolding_all decide)
    (by with_unfolding_all decide) (by with_unfolding_all decide)

theorem length_addForce (l : List AtomQ) (i : ℕ) (v : Vec3) :
    (addForce l i v).length = l.length := by
  unfold addForce
  cases h : l.get? i with
  | none => rfl
  | some a => simp

theorem sumForce_nil : sumForce [] = 0 := rfl

theorem sumForce_cons (a : AtomQ) (l : List AtomQ) :
    sumForce (a :: l) = a.force + sumForce l := by
  simp [sumForce]

theorem addForce_cons_zero (b : AtomQ) (t : List AtomQ) (v : Vec3) :
    addForce (b :: t) 0 v = { b with force := b.force + v } :: t := rfl

theorem addForce_cons_succ (b : AtomQ) (t : List AtomQ) (k : ℕ) (v : Vec3) :
    addForce (b :: t) (k + 1) v = b :: addForce t k v := by
  unfold addForce
  cases h : t[k]? <;> simp [List.get?_eq_getElem?, h]

theorem sumForce_addForce (l : List AtomQ) (i : ℕ) (v : Vec3)
    (h : i < l.length) :
    sumForce (addForce l i v) = sumForce l + v := by
  induction l generalizing i with
  | nil => simp at h
  | cons b t ih =>
    cases i with
    | zero =>
      rw [addForce_cons_zero, sumForce_cons, sumForce_cons]
      abel
    | succ k =>
      have hk : k < t.length := by simpa using h
      rw [addForce_cons_succ, sumForce_cons, sumForce_cons, ih k hk]
      abel

theorem sumForce_addForce_pair (l : List AtomQ) (a b : ℕ) (v : Vec3)
    (ha : a < l.length) (hb : b < l.length) :
    sumForce (addForce (addForce l a v) b (-v)) = sumForce l := by
  have hb' : b < (addForce l a v).length := by rw [length_addForce]; exact hb
  rw [sumForce_addForce _ _ _ hb', sumForce_addForce _ _ _ ha,
    add_neg_cancel_right]

theorem sumForce_set_sameForce (l : List AtomQ) (i : ℕ) (a' : AtomQ)
    (hf : a'.force = (l.getD i adefault).force) :
    sumForce (l.set i a') = sumForce l := by
  induction l generalizing i with
  | nil => rfl
  | cons b t ih =>
    cases i with
    | zero =>
      rw [List.set_cons_zero, sumForce_cons, sumForce_cons]
      rw [List.getD_cons_zero] at hf
      rw [hf]
    | succ k =>
      rw [List.set_cons_succ, sumForce_cons, sumForce_cons]
      rw [List.getD_cons_succ] at hf
      rw [ih k hf]

theorem length_forcePairStep (fn : RealFuns) (es : EngineState)
    (ats : List AtomQ) (i j : ℕ) :
    (forcePairStep fn es ats i j).length = ats.length := by
  unfold forcePairStep
  dsimp only
  split
  · rfl
  · rw [length_addForce, length_addForce]

theorem sumForce_forcePairStep (fn : RealFuns) (es : EngineState)
    (ats : List AtomQ) (i j : ℕ) (hi : i < ats.length) (hj : j < ats.length) :
    sumForce (forcePairStep fn es ats i j) = sumForce ats := by
  unfold forcePairStep
  dsimp only
  split
  · rfl
  · exact sumForce_addForce_pair ats i j _ hi hj

theorem forceFold_inv (fn : RealFuns) (es : EngineState) (i : ℕ)
    (js : List ℕ) (ats : List AtomQ) (hi : i < ats.length)
    (hjs : ∀ j ∈ js, j < ats.length) :
    (js.foldl (fun ats2 j => forcePairStep fn es ats2 i j) ats).length
        = ats.length
    ∧ sumForce (js.foldl (fun ats2 j => forcePairStep fn es ats2 i j) ats)
        = sumForce ats := by
  induction js generalizing ats with
  | nil => exact ⟨rfl, rfl⟩
  | cons j js ih =>
    have hj : j < ats.length := hjs j (List.mem_cons_self j js)
    have h1 := length_forcePairStep fn es ats i j
    obtain ⟨hl, hs⟩ := ih (forcePairStep fn es ats i j) (h1 ▸ hi)
      (fun j2 hj2 => h1 ▸ hjs j2 (List.mem_cons_of_mem _ hj2))
    refine ⟨by rw [List.foldl_cons, hl, h1], ?_⟩
    rw [List.foldl_cons, hs, sumForce_forcePairStep fn es ats i j hi hj]

theorem forceRowStep_inv (fn : RealFuns) (es : EngineState) (n : ℕ)
    (p : ℚ × List AtomQ) (i : ℕ) (hn : p.2.length = n) (hi : i < n) :
    (forceRowStep fn es n p i).2.length = n
    ∧ sumForce (forceRowStep fn es n p i).2 = sumForce p.2 := by
  obtain ⟨hl1, hs1⟩ := forceFold_inv fn es i ((List.range n).drop (i+1)) p.2
    (hn ▸ hi)
    (fun j hj => hn ▸ List.mem_range.mp (List.mem_of_mem_drop hj))
  unfold forceRowStep
  dsimp only
  constructor
  · rw [List.length_set, hl1, hn]
  · refine (sumForce_set_sameForce _ i _ ?_).trans hs1
    rfl

theorem rows_fold_inv (fn : RealFuns) (es : EngineState) (n : ℕ)
    (is : List ℕ) (p : ℚ × List AtomQ) (hn : p.2.length = n)
    (his : ∀ i ∈ is, i < n) :
    (is.foldl (forceRowStep fn es n) p).2.length = n
    ∧ sumForce (is.foldl (forceRowStep fn es n) p).2 = sumForce p.2 := by
  induction is generalizing p with
  | nil => exact ⟨hn, rfl⟩
  | cons i is ih =>
    obtain ⟨h1, h2⟩ := forceRowStep_inv fn es n p i hn
      (his i (List.mem_cons_self i is))
    obtain ⟨hl, hs⟩ := ih (forceRowStep fn es n p i) h1
      (fun i2 hm => his i2 (List.mem_cons_of_mem _ hm))
    exact ⟨hl, hs.trans h2⟩

theorem length_angleForcePair (fn : RealFuns) (ats : List AtomQ) (i : ℕ)
    (r : ℚ) (bi bj : ℕ) :
    (angleForcePair fn ats i r bi bj).length = ats.length := by
  unfold angleForcePair
  dsimp only
  split
  · rfl
  split
  · rfl
  split
  · rfl
  split <;> split <;> simp [length_addForce]

theorem sumForce_angleForcePair (fn : RealFuns) (ats : List AtomQ) (i : ℕ)
    (r : ℚ) (bi bj : ℕ) (hi : i < ats.length) :
    sumForce (angleForcePair fn ats i r bi bj) = sumForce ats := by
  unfold angleForcePair
  dsimp only
  split
  · rfl
  rename_i hneg
  split
  · rfl
  rename_i hn
  have hA : (((ats.getD i adefault).bonds.getD bi default).otherAtomIdx).toNat
      < ats.length := by
    push_neg at hneg hn
    omega
  have hB : (((ats.getD i adefault).bonds.getD bj default).otherAtomIdx).toNat
      < ats.length := by
    push_neg at hneg hn
    omega
  split
  · rfl
  split <;> split
  · rw [sumForce_addForce_pair _ _ _ _
      (by rw [length_addForce, length_addForce]; exact hB)
      (by rw [length_addForce, length_addForce]; exact hi),
      sumForce_addForce_pair _ _ _ _ hA hi]
  · rw [sumForce_addForce_pair _ _ _ _ hB hi]
  · rw [sumForce_addForce_pair _ _ _ _ hA hi]
  · rfl

theorem angle_pairs_fold_inv (fn : RealFuns) (i : ℕ) (r : ℚ)
    (ps : List (ℕ × ℕ)) (ats : List AtomQ) (hi : i < ats.length) :
    (ps.foldl (fun acc bb => angleForcePair fn acc i r bb.1 bb.2) ats).length
        = ats.length
    ∧ sumForce
        (ps.foldl (fun acc bb => angleForcePair fn acc i r bb.1 bb.2) ats)
        = sumForce ats := by
  induction ps generalizing ats with
  | nil => exact ⟨rfl, rfl⟩
  | cons bb ps ih =>
    have h1 := length_angleForcePair fn ats i r bb.1 bb.2
    obtain ⟨hl, hs⟩ := ih (angleForcePair fn ats i r bb.1 bb.2) (h1 ▸ hi)
    refine ⟨by rw [List.foldl_cons, hl, h1], ?_⟩
    rw [List.foldl_cons, hs, sumForce_angleForcePair fn ats i r bb.1 bb.2 hi]

theorem angleCenterStep_inv (fn : RealFuns) (ats : List AtomQ) (i : ℕ)
    (hi : i < ats.length) :
    (angleCenterStep fn ats i).length = ats.length
    ∧ sumForce (angleCenterStep fn ats i) = sumForce ats := by
  unfold angleCenterStep
  dsimp only
  split
  · exact ⟨rfl, rfl⟩
  · exact angle_pairs_fold_inv fn i _ _ ats hi

theorem angle_range_fold_inv (fn : RealFuns) (n : ℕ) (is : List ℕ)
    (ats : List AtomQ) (hn : ats.length = n) (his : ∀ i ∈ is, i < n) :
    (is.foldl (angleCenterStep fn) ats).length = n
    ∧ sumForce (is.foldl (angleCenterStep fn) ats) = sumForce ats := by
  induction is generalizing ats with
  | nil => exact ⟨hn, rfl⟩
  | cons i is ih =>
    have hi : i < ats.length := by rw [hn]; exact his i (List.mem_cons_self i is)
    obtain ⟨h1, h2⟩ := angleCenterStep_inv fn ats i hi
    obtain ⟨hl, hs⟩ := ih (angleCenterStep fn ats i) (h1.trans hn)
      (fun i2 hm => his i2 (List.mem_cons_of_mem _ hm))
    exact ⟨hl, hs.trans h2⟩

theorem sumForce_applyAngleForces (fn : RealFuns) (ats : List AtomQ) :
    sumForce (applyAngleForces fn ats) = sumForce ats :=
  (angle_range_fold_inv fn ats.length (List.range ats.length) ats rfl
    (fun i h => List.mem_range.mp h)).2

theorem sumForce_zeroed (l : List AtomQ) :
    sumForce (l.map fun a => { a with force := (0 : Vec3) }) = 0 := by
  induction l with
  | nil => rfl
  | cons a t ih => rw [List.map_cons, sumForce_cons, ih, add_zero]

/-- **C7**: Newton-third-law pairing holds exactly.  For every engine state
and every atom collection, after `computeForces` returns — the pairwise
Morse / Lennard-Jones / Coulomb pass, which applies `f` to the first atom of
each pair and `−f` to the second, and then the VSEPR angle pass, which
applies each neighbour force together with its equal-and-opposite reaction
on the center — the vector sum of the force accumulators over all atoms is
exactly zero in exact arithmetic. -/
theorem computeForces_sum_zero (fn : RealFuns) (es : EngineState)
    (atoms : List AtomQ) :
    sumForce (computeForces fn es atoms).2 = 0 := by
  unfold computeForces
  dsimp only
  rw [sumForce_applyAngleForces]
  obtain ⟨-, hs⟩ := rows_fold_inv fn es atoms.length
    (List.range atoms.length)
    ((0 : ℚ), atoms.map fun a => { a with force := (0 : Vec3) })
    (by simp) (fun i h => List.mem_range.mp h)
  exact hs.trans (sumForce_zeroed atoms)

theorem sjoin_foldl (l : List String) (a : String) :
    List.foldl (· ++ ·) a l = a ++ String.join l := by
  induction l generalizing a with
  | nil => exact (String.append_empty a).symm
  | cons s t ih =>
    rw [List.foldl_cons, ih]
    have hj : String.join (s :: t) = s ++ String.join t := by
      have h0 : String.join (s :: t) = List.foldl (· ++ ·) ("" ++ s) t := rfl
      rw [h0, String.empty_append, ih]
    rw [hj, String.append_assoc]

theorem sjoin_cons (s : String) (t : List String) :
    String.join (s :: t) = s ++ String.join t := by
  have h0 : String.join (s :: t) = List.foldl (· ++ ·) ("" ++ s) t := rfl
  rw [h0, String.empty_append, sjoin_foldl]

theorem foldl_fmt_join (l : List (String × ℕ)) (a : String) :
    List.foldl (fun acc kv => acc ++ fmtEntry kv) a l
      = a ++ String.join (l.map fmtEntry) := by
  induction l generalizing a with
  | nil => exact (String.append_empty a).symm
  | cons kv t ih =>
    rw [List.foldl_cons, ih, List.map_cons, sjoin_cons, String.append_assoc]

theorem bumpCount_keys (m : List (String × ℕ)) (s : String) :
    ∀ p ∈ bumpCount m s, p.1 = s ∨ ∃ q ∈ m, p.1 = q.1 := by
  induction m with
  | nil =>
    intro p hp
    simp only [bumpCount, List.mem_singleton] at hp
    exact Or.inl (by rw [hp])
  | cons kc rest ih =>
    intro p hp
    obtain ⟨k, c⟩ := kc
    by_cases h1 : s < k
    · rw [show bumpCount ((k,c)::rest) s = (s,1)::(k,c)::rest from by
        simp [bumpCount, h1]] at hp
      rcases List.mem_cons.mp hp with rfl | hp2
      · exact Or.inl rfl
      · exact Or.inr ⟨p, hp2, rfl⟩
    · by_cases h2 : s = k
      · rw [show bumpCount ((k,c)::rest) s = (k,c+1)::rest from by
          simp [bumpCount, h1, h2]] at hp
        rcases List.mem_cons.mp hp with rfl | hp2
        · exact Or.inl h2.symm
        · exact Or.inr ⟨p, List.mem_cons_of_mem _ hp2, rfl⟩
      · rw [show bumpCount ((k,c)::rest) s = (k,c)::bumpCount rest s from by
          simp [bumpCount, h1, h2]] at hp
        rcases List.mem_cons.mp hp with rfl | hp2
        · exact Or.inr ⟨(k,c), List.mem_cons_self _ _, rfl⟩
        · rcases ih p hp2 with h | ⟨q, hq, he⟩
          · exact Or.inl h
          · exact Or.inr ⟨q, List.mem_cons_of_mem _ hq, he⟩

theorem pairwise_bumpCount (m : List (String × ℕ)) (s : String)
    (h : m.Pairwise fun a b => a.1 < b.1) :
    (bumpCount m s).Pairwise fun a b => a.1 < b.1 := by
  induction m with
  | nil => simp [bumpCount]
  | cons kc rest ih =>
    obtain ⟨k, c⟩ := kc
    rw [List.pairwise_cons] at h
    obtain ⟨hk, hrest⟩ := h
    by_cases h1 : s < k
    · rw [show bumpCount ((k,c)::rest) s = (s,1)::(k,c)::rest from by
        simp [bumpCount, h1]]
      refine List.Pairwise.cons ?_ (List.Pairwise.cons hk hrest)
      intro b hb
      rcases List.mem_cons.mp hb with rfl | hb2
      · exact h1
      · exact lt_trans h1 (hk b hb2)
    · by_cases h2 : s = k
      · rw [show bumpCount ((k,c)::rest) s = (k,c+1)::rest from by
          simp [bumpCount, h1, h2]]
        exact List.Pairwise.cons hk hrest
      · have hks : k < s := by
          rcases lt_trichotomy s k with h | h | h
          · exact absurd h h1
          · exact absurd h h2
          · exact h
        rw [show bumpCount ((k,c)::rest) s = (k,c)::bumpCount rest s from by
          simp [bumpCount, h1, h2]]
        refine List.Pairwise.cons ?_ (ih hrest)
        intro p hp
        rcases bumpCount_keys rest s p hp with he | ⟨q, hq, he⟩
        · rw [he]; exact hks
        · rw [he]; exact hk q hq

theorem lookup_bumpCount (m : List (String × ℕ)) (s t : String)
    (h : m.Pairwise fun a b => a.1 < b.1) :
    (bumpCount m s).lookup t
      = if t = s then some ((m.lookup t).getD 0 + 1) else m.lookup t := by
  induction m with
  | nil =>
    show ([(s,1)].lookup t) = _
    by_cases ht : t = s
    · subst ht; simp
    · simp [List.lookup_cons, beq_eq_false_iff_ne.mpr ht, ht]
  | cons kc rest ih =>
    obtain ⟨k, c⟩ := kc
    rw [List.pairwise_cons] at h
    obtain ⟨hk, hrest⟩ := h
    by_cases h1 : s < k
    · rw [show bumpCount ((k,c)::rest) s = (s,1)::(k,c)::rest from by
        simp [bumpCount, h1]]
      by_cases ht : t = s
      · subst ht
        have hnone : (((k,c)::rest).lookup t) = none := by
          rw [List.lookup_eq_none_iff]
          intro p hp
          rcases List.mem_cons.mp hp with rfl | hp2
          · simp only [bne_iff_ne]; exact ne_of_lt h1
          · simp only [bne_iff_ne]; exact ne_of_lt (lt_trans h1 (hk p hp2))
        rw [if_pos rfl, hnone]
        simp [List.lookup_cons]
      · rw [if_neg ht]
        simp [List.lookup_cons, beq_eq_false_iff_ne.mpr ht]
    · by_cases h2 : s = k
      · subst h2
        rw [show bumpCount ((s,c)::rest) s = (s,c+1)::rest from by
          simp [bumpCount, h1]]
        by_cases ht : t = s
        · subst ht
          simp [List.lookup_cons]
        · simp [List.lookup_cons, beq_eq_false_iff_ne.mpr ht, ht]
      · rw [show bumpCount ((k,c)::rest) s = (k,c)::bumpCount rest s from by
          simp [bumpCount, h1, h2]]
        by_cases htk : t = k
        · subst htk
          have hts : ¬ t = s := fun he => h2 (he.symm.trans rfl)
          rw [if_neg hts]
          simp [List.lookup_cons]
        · have hb : (t == k) = false := beq_eq_false_iff_ne.mpr htk
          have hL : (((k,c) :: bumpCount rest s).lookup t)
              = (bumpCount rest s).lookup t := by
            rw [List.lookup_cons, hb]
          have hR : (((k,c) :: rest).lookup t) = rest.lookup t := by
            rw [List.lookup_cons, hb]
          rw [hL, ih hrest, hR]

theorem pairwise_foldl_bump (syms : List String) (m : List (String × ℕ))
    (h : m.Pairwise fun a b => a.1 < b.1) :
    (syms.foldl bumpCount m).Pairwise fun a b => a.1 < b.1 := by
  induction syms generalizing m with
  | nil => exact h
  | cons s ss ih =>
    rw [List.foldl_cons]
    exact ih _ (pairwise_bumpCount m s h)

theorem lookup_foldl_bump (syms : List String) (m : List (String × ℕ))
    (h : m.Pairwise fun a b => a.1 < b.1) (t : String) :
    ((syms.foldl bumpCount m).lookup t).getD 0
      = (m.lookup t).getD 0 + syms.count t := by
  induction syms generalizing m with
  | nil => simp
  | cons s ss ih =>
    rw [List.foldl_cons, ih (bumpCount m s) (pairwise_bumpCount m s h),
      lookup_bumpCount m s t h]
    by_cases ht : t = s
    · subst ht
      rw [if_pos rfl]
      simp [List.count_cons]
      omega
    · rw [if_neg ht]
      simp [List.count_cons, ht]

theorem filter_key_of_lookup_some (m : List (String × ℕ)) (s : String) (c : ℕ)
    (hnd : m.Pairwise fun a b => a.1 < b.1) (h : m.lookup s = some c) :
    m.filter (fun kv => kv.1 == s) = [(s, c)] := by
  induction m with
  | nil => simp at h
  | cons kc rest ih =>
    obtain ⟨k, v⟩ := kc
    rw [List.pairwise_cons] at hnd
    obtain ⟨hk, hrest⟩ := hnd
    by_cases hks : s = k
    · subst hks
      have hv : v = c := by simpa using h
      subst hv
      rw [List.filter_cons]
      simp only [beq_self_eq_true, if_true]
      have hrf : rest.filter (fun kv => kv.1 == s) = [] := by
        rw [List.filter_eq_nil_iff]
        intro p hp
        simp only [beq_iff_eq]
        exact ne_of_gt (hk p hp)
      rw [hrf]
    · rw [List.filter_cons]
      have hb : ((k,v).1 == s) = false :=
        beq_eq_false_iff_ne.mpr (fun he => hks he.symm)
      rw [hb]
      simp only [Bool.false_eq_true, if_false]
      apply ih hrest
      have hb2 : (s == k) = false := beq_eq_false_iff_ne.mpr hks
      rw [List.lookup_cons, hb2] at h
      exact h

theorem filter_key_of_lookup_none (m : List (String × ℕ)) (s : String)
    (h : m.lookup s = none) :
    m.filter (fun kv => kv.1 == s) = [] := by
  rw [List.filter_eq_nil_iff]
  rw [List.lookup_eq_none_iff] at h
  intro p hp
  have h2 := h p hp
  simp only [bne_iff_ne] at h2
  simp only [beq_iff_eq]
  exact fun he => h2 he.symm

theorem keys_absent_of_lookup_none (m : List (String × ℕ)) (s : String)
    (h : m.lookup s = none) : ∀ p ∈ m, ¬ p.1 = s := by
  rw [List.lookup_eq_none_iff] at h
  intro p hp he
  have h2 := h p hp
  simp only [bne_iff_ne] at h2
  exact h2 he.symm

theorem eraseP_eq_filter_not (m : List (String × ℕ)) (s : String)
    (hnd : m.Pairwise fun a b => a.1 < b.1) :
    m.eraseP (fun kv => kv.1 == s) = m.filter (fun kv => !(kv.1 == s)) := by
  induction m with
  | nil => rfl
  | cons kc rest ih =>
    obtain ⟨k, v⟩ := kc
    rw [List.pairwise_cons] at hnd
    obtain ⟨hk, hrest⟩ := hnd
    by_cases hks : k = s
    · subst hks
      rw [List.eraseP_cons, List.filter_cons]
      simp only [beq_self_eq_true, cond_true, Bool.not_true,
        Bool.false_eq_true, if_false]
      rw [eq_comm, List.filter_eq_self]
      intro p hp
      simp only [Bool.not_eq_true', beq_eq_false_iff_ne]
      exact ne_of_gt (hk p hp)
    · rw [List.eraseP_cons, List.filter_cons]
      have hb : ((k,v).1 == s) = false := beq_eq_false_iff_ne.mpr hks
      rw [hb]
      simp only [cond_false, Bool.not_false, if_true]
      rw [ih hrest]

theorem lookup_eraseP_ne (m : List (String × ℕ)) (s t : String)
    (hts : ¬ t = s) :
    (m.eraseP (fun kv => kv.1 == s)).lookup t = m.lookup t := by
  induction m with
  | nil => rfl
  | cons kc rest ih =>
    obtain ⟨k, v⟩ := kc
    by_cases hks : k = s
    · subst hks
      rw [List.eraseP_cons]
      simp only [beq_self_eq_true, cond_true]
      have hb : (t == k) = false := beq_eq_false_iff_ne.mpr hts
      rw [List.lookup_cons, hb]
    · rw [List.eraseP_cons]
      have hb : ((k,v).1 == s) = false := beq_eq_false_iff_ne.mpr hks
      rw [hb]
      simp only [cond_false]
      by_cases htk : t = k
      · subst htk
        rw [List.lookup_cons_self, List.lookup_cons_self]
      · have hb2 : (t == k) = false := beq_eq_false_iff_ne.mpr htk
        rw [List.lookup_cons, List.lookup_cons, hb2, ih]

theorem hillSpec_single (x : String) : hillSpec [x] = x := by
  unfold hillSpec
  dsimp only
  have hc0 : ([x].foldl bumpCount ([] : List (String × ℕ))) = [(x, 1)] := rfl
  rw [hc0]
  have hjn : String.join ([] : List String) = "" := rfl
  by_cases hc : x = "C"
  · subst hc
    simp [List.filter_cons, fmtEntry, sjoin_cons, hjn]
  · by_cases hh : x = "H"
    · subst hh
      simp [List.filter_cons, fmtEntry, sjoin_cons, hjn]
    · simp [List.filter_cons, fmtEntry, sjoin_cons, hjn,
        beq_eq_false_iff_ne.mpr hc, beq_eq_false_iff_ne.mpr hh]

theorem formula_fold_eq_joins (cs : List (String × ℕ))
    (hpw : cs.Pairwise fun a b => a.1 < b.1) :
    List.foldl (fun acc kv => acc ++ fmtEntry kv)
        (appendSym "H" (appendSym "C" ("", cs))).1
        (appendSym "H" (appendSym "C" ("", cs))).2
      = String.join ((cs.filter fun kv => kv.1 == "C").map fmtEntry)
        ++ String.join ((cs.filter fun kv => kv.1 == "H").map fmtEntry)
        ++ String.join ((cs.filter fun kv =>
              !(kv.1 == "C" || kv.1 == "H")).map fmtEntry) := by
  have hjn : String.join ([] : List String) = "" := rfl
  cases hC : cs.lookup "C" with
  | none =>
    rw [show appendSym "C" ("", cs) = ("", cs) from by
      unfold appendSym; dsimp only; rw [hC]]
    cases hH : cs.lookup "H" with
    | none =>
      rw [show appendSym "H" ("", cs) = ("", cs) from by
        unfold appendSym; dsimp only; rw [hH]]
      rw [foldl_fmt_join]
      rw [filter_key_of_lookup_none cs "C" hC,
        filter_key_of_lookup_none cs "H" hH]
      have hfs : cs.filter (fun kv => !(kv.1 == "C" || kv.1 == "H")) = cs := by
        rw [List.filter_eq_self]
        intro p hp
        have h1 := keys_absent_of_lookup_none cs "C" hC p hp
        have h2 := keys_absent_of_lookup_none cs "H" hH p hp
        simp [beq_eq_false_iff_ne.mpr h1, beq_eq_false_iff_ne.mpr h2]
      rw [hfs]
      simp [hjn, String.empty_append]
    | some d =>
      rw [show appendSym "H" ("", cs)
          = ("" ++ fmtEntry ("H", d), cs.eraseP fun kv => kv.1 == "H") from by
        unfold appendSym; dsimp only; rw [hH]]
      rw [foldl_fmt_join]
      rw [filter_key_of_lookup_none cs "C" hC,
        filter_key_of_lookup_some cs "H" d hpw hH]
      rw [eraseP_eq_filter_not cs "H" hpw]
      have hfs : cs.filter (fun kv => !(kv.1 == "H"))
          = cs.filter (fun kv => !(kv.1 == "C" || kv.1 == "H")) := by
        apply List.filter_congr
        intro p hp
        have h1 := keys_absent_of_lookup_none cs "C" hC p hp
        simp [beq_eq_false_iff_ne.mpr h1]
      rw [hfs]
      simp [sjoin_cons, hjn, String.empty_append, String.append_assoc]
  | some c =>
    rw [show appendSym "C" ("", cs)
        = ("" ++ fmtEntry ("C", c), cs.eraseP fun kv => kv.1 == "C") from by
      unfold appendSym; dsimp only; rw [hC]]
    have hpwE : (cs.eraseP fun kv => kv.1 == "C").Pairwise
        (fun a b => a.1 < b.1) := by
      rw [eraseP_eq_filter_not cs "C" hpw]
      exact hpw.filter _
    have hHE : (cs.eraseP fun kv => kv.1 == "C").lookup "H" = cs.lookup "H" :=
      lookup_eraseP_ne cs "C" "H" (by decide)
    cases hH : cs.lookup "H" with
    | none =>
      rw [show appendSym "H"
            ("" ++ fmtEntry ("C", c), cs.eraseP fun kv => kv.1 == "C")
          = ("" ++ fmtEntry ("C", c), cs.eraseP fun kv => kv.1 == "C") from by
        unfold appendSym; dsimp only; rw [hHE, hH]]
      rw [foldl_fmt_join]
      rw [filter_key_of_lookup_some cs "C" c hpw hC,
        filter_key_of_lookup_none cs "H" hH]
      rw [eraseP_eq_filter_not cs "C" hpw]
      have hfs : cs.filter (fun kv => !(kv.1 == "C"))
          = cs.filter (fun kv => !(kv.1 == "C" || kv.1 == "H")) := by
        apply List.filter_congr
        intro p hp
        have h2 := keys_absent_of_lookup_none cs "H" hH p hp
        simp [beq_eq_false_iff_ne.mpr h2]
      rw [hfs]
      simp [sjoin_cons, hjn, String.empty_append, String.append_assoc]
    | some d =>
      rw [show appendSym "H"
            ("" ++ fmtEntry ("C", c), cs.eraseP fun kv => kv.1 == "C")
          = (("" ++ fmtEntry ("C", c)) ++ fmtEntry ("H", d),
             (cs.eraseP fun kv => kv.1 == "C").eraseP
               fun kv => kv.1 == "H") from by
        unfold appendSym; dsimp only; rw [hHE, hH]]
      rw [foldl_fmt_join]
      rw [filter_key_of_lookup_some cs "C" c hpw hC,
        filter_key_of_lookup_some cs "H" d hpw hH]
      rw [eraseP_eq_filter_not _ "H" hpwE, eraseP_eq_filter_not cs "C" hpw]
      rw [List.filter_filter]
      have hfs : cs.filter (fun kv => ((!(kv.1 == "H")) && (!(kv.1 == "C"))))
          = cs.filter (fun kv => !(kv.1 == "C" || kv.1 == "H")) := by
        apply List.filter_congr
        intro p hp
        cases h1 : (p.1 == "C") <;> cases h2 : (p.1 == "H") <;> simp [h1, h2]
      rw [hfs]
      simp [sjoin_cons, hjn, String.empty_append, String.append_assoc]

theorem computeFormula_eq_hillSpec (atoms : List AtomQ) (indices : List ℕ) :
    computeFormula atoms indices = hillSpec (indices.map (symbolAt atoms)) := by
  by_cases hone : indices.length = 1
  · obtain ⟨i, rfl⟩ := List.length_eq_one.mp hone
    simp only [List.map_cons, List.map_nil, hillSpec_single]
    unfold computeFormula
    rw [if_pos (by rfl)]
    rfl
  · unfold computeFormula hillSpec
    rw [if_neg hone]
    dsimp only
    rw [show indices.foldl (fun m idx => bumpCount m (symbolAt atoms idx)) []
        = (indices.map (symbolAt atoms)).foldl bumpCount [] from
      (List.foldl_map _ _ _ _).symm]
    exact formula_fold_eq_joins _ (pairwise_foldl_bump _ _ List.Pairwise.nil)

/-- **C8**: the computed formula follows the Hill system.  First conjunct:
for every atom collection and every index list, `computeFormula` yields
exactly the spec-modelled `hillSpec` of the member symbols — the carbon
entry first if present, hydrogen second if present, then the remaining
entries in the count table's key order, each count omitted when 1.  Second
and third conjuncts certify the count table: its keys are in strictly
increasing lexicographic order (so "the remaining entries in table order"
is precisely alphabetical order), and each symbol's tabled count is its
multiset multiplicity.  Final conjuncts: the claim's three concrete
examples, C₃H₈ → `"C3H8"`, H₂O → `"H2O"`, NaCl → `"ClNa"`. -/
theorem computeFormula_follows_hill_system :
    (∀ (atoms : List AtomQ) (indices : List ℕ),
        computeFormula atoms indices = hillSpec (indices.map (symbolAt atoms)))
    ∧ (∀ syms : List String,
        (syms.foldl bumpCount []).Pairwise fun a b => a.1 < b.1)
    ∧ (∀ (syms : List String) (t : String),
        ((syms.foldl bumpCount []).lookup t).getD 0 = syms.count t)
    ∧ computeFormula c8propane (List.range 11) = "C3H8"
    ∧ computeFormula c8water (List.range 3) = "H2O"
    ∧ computeFormula c8salt (List.range 2) = "ClNa" := by
  refine ⟨computeFormula_eq_hillSpec,
    fun syms => pairwise_foldl_bump syms [] List.Pairwise.nil,
    fun syms t => by
      simpa using lookup_foldl_bump syms [] List.Pairwise.nil t,
    ?_, ?_, ?_⟩
  · with_unfolding_all rfl
  · with_unfolding_all rfl
  · with_unfolding_all rfl

theorem bondsAt_set_self (s : List AtomQ) (i : ℕ) (a : AtomQ)
    (h : i < s.length) : bondsAt (s.set i a) i = a.bonds := by
  unfold bondsAt
  rw [List.getD_eq_getElem?_getD, List.getElem?_set_self (by simpa using h)]
  rfl

theorem bondsAt_set_ne (s : List AtomQ) (i : ℕ) (a : AtomQ) (k : ℕ)
    (h : ¬ k = i) : bondsAt (s.set i a) k = bondsAt s k := by
  unfold bondsAt
  rw [List.getD_eq_getElem?_getD, List.getD_eq_getElem?_getD,
    List.getElem?_set_ne (fun he => h he.symm)]

theorem length_modifyAtom (l : List AtomQ) (i : ℕ) (f : AtomQ → AtomQ) :
    (modifyAtom l i f).length = l.length := by
  unfold modifyAtom
  cases h : l.get? i with
  | none => rfl
  | some a => simp

theorem bondsAt_modifyAtom_self (l : List AtomQ) (i : ℕ) (f : AtomQ → AtomQ)
    (h : i < l.length) :
    bondsAt (modifyAtom l i f) i = (f (l.getD i adefault)).bonds := by
  unfold modifyAtom
  cases hg : l.get? i with
  | none =>
    exfalso
    have h2 := List.get?_eq_none.mp hg
    omega
  | some a =>
    have ha : l.getD i adefault = a := by
      rw [List.getD_eq_getElem?_getD, ← List.get?_eq_getElem?, hg]
      rfl
    rw [ha, bondsAt_set_self _ _ _ h]

theorem bondsAt_modifyAtom_ne (l : List AtomQ) (i : ℕ) (f : AtomQ → AtomQ)
    (k : ℕ) (h : ¬ k = i) :
    bondsAt (modifyAtom l i f) k = bondsAt l k := by
  unfold modifyAtom
  cases hg : l.get? i with
  | none => rfl
  | some a => exact bondsAt_set_ne _ _ _ _ h

theorem bondsAt_modifyAtom_pres (l : List AtomQ) (i : ℕ) (f : AtomQ → AtomQ)
    (hf : ∀ a, (f a).bonds = a.bonds) (k : ℕ) :
    bondsAt (modifyAtom l i f) k = bondsAt l k := by
  by_cases hk : k = i
  · subst hk
    by_cases h : k < l.length
    · rw [bondsAt_modifyAtom_self l k f h, hf]
      rfl
    · unfold modifyAtom
      cases hg : l.get? k with
      | none => rfl
      | some a =>
        exfalso
        rw [List.get?_eq_none.mpr (le_of_not_lt h)] at hg
        cases hg
  · exact bondsAt_modifyAtom_ne l i f k hk

theorem length_setBonds (l : List AtomQ) (i : ℕ) (bs : List Bond) :
    (setBonds l i bs).length = l.length :=
  length_modifyAtom l i _

theorem bondsAt_setBonds_self (l : List AtomQ) (i : ℕ) (bs : List Bond)
    (h : i < l.length) : bondsAt (setBonds l i bs) i = bs := by
  unfold setBonds
  rw [bondsAt_modifyAtom_self _ _ _ h]

theorem bondsAt_setBonds_ne (l : List AtomQ) (i : ℕ) (bs : List Bond) (k : ℕ)
    (h : ¬ k = i) : bondsAt (setBonds l i bs) k = bondsAt l k :=
  bondsAt_modifyAtom_ne _ _ _ _ h

theorem removeOuterElectron_bonds (a : AtomQ) :
    (removeOuterElectron a).2.bonds = a.bonds := rfl

theorem addElectron_bonds (a : AtomQ) (e : Electron) :
    (addElectron a e).bonds = a.bonds := rfl

theorem bondsAt_map_uev (s : List AtomQ) (k : ℕ) :
    bondsAt (s.map updateEffectiveValence) k = bondsAt s k := by
  unfold bondsAt
  rw [List.getD_eq_getElem?_getD, List.getD_eq_getElem?_getD,
    List.getElem?_map]
  cases h : s[k]? with
  | none => rfl
  | some a => rfl

theorem WFbonds_congr (s s2 : List AtomQ) (hlen : s2.length = s.length)
    (hb : ∀ k, bondsAt s2 k = bondsAt s k) (h : WFbonds s) : WFbonds s2 := by
  intro k hk
  rw [hlen] at hk
  obtain ⟨hnd, hall⟩ := h k hk
  refine ⟨by rw [hb k]; exact hnd, ?_⟩
  intro b hbm
  rw [hb k] at hbm
  obtain ⟨h1, h2, h3, bp, hbp, hm⟩ := hall b hbm
  refine ⟨h1, by rw [hlen]; exact h2, h3, bp, ?_, hm⟩
  rw [hb]
  exact hbp

theorem middle_not_mem {α : Type} (xs ys : List α) (y : α)
    (h : (xs ++ y :: ys).Nodup) : ¬ y ∈ xs ∧ ¬ y ∈ ys := by
  rw [List.nodup_append] at h
  obtain ⟨h1, h2, h3⟩ := h
  rw [List.nodup_cons] at h2
  exact ⟨fun hm => h3 hm (List.mem_cons_self _ _), h2.1⟩

theorem WFbonds_break (s : List AtomQ) (i : ℕ) (b : Bond)
    (kept rest : List Bond) (hi : i < s.length)
    (hsplit : bondsAt s i = kept ++ b :: rest)
    (h : WFbonds s)
    (s2 : List AtomQ) (hlen2 : s2.length = s.length)
    (hb2 : ∀ k, bondsAt s2 k
      = bondsAt (modifyAtom s b.otherAtomIdx.toNat fun aj =>
          { aj with bonds := aj.bonds.filter fun b2 =>
              decide (¬ b2.otherAtomIdx = (i : ℤ)) }) k) :
    WFbonds (setBonds s2 i (kept ++ rest))
    ∧ (setBonds s2 i (kept ++ rest)).length = s.length
    ∧ bondsAt (setBonds s2 i (kept ++ rest)) i = kept ++ rest := by
  have hbmem : b ∈ bondsAt s i := by
    rw [hsplit]; exact List.mem_append_right _ (List.mem_cons_self _ _)
  obtain ⟨hndI, hallI⟩ := h i hi
  obtain ⟨hb0, hbn, hbne, -⟩ := hallI b hbmem
  have hj : b.otherAtomIdx.toNat < s.length := by omega
  have hjne : ¬ b.otherAtomIdx.toNat = i := by omega
  have hb1 : ∀ k, bondsAt (modifyAtom s b.otherAtomIdx.toNat fun aj =>
        { aj with bonds := aj.bonds.filter fun b2 =>
            decide (¬ b2.otherAtomIdx = (i : ℤ)) }) k
      = if k = b.otherAtomIdx.toNat
        then (bondsAt s b.otherAtomIdx.toNat).filter
            (fun b2 => decide (¬ b2.otherAtomIdx = (i : ℤ)))
        else bondsAt s k := by
    intro k
    by_cases hk : k = b.otherAtomIdx.toNat
    · subst hk
      rw [if_pos rfl, bondsAt_modifyAtom_self _ _ _ hj]
      rfl
    · rw [if_neg hk, bondsAt_modifyAtom_ne _ _ _ _ hk]
  have hfin : ∀ k, bondsAt (setBonds s2 i (kept ++ rest)) k
      = if k = i then kept ++ rest
        else if k = b.otherAtomIdx.toNat
          then (bondsAt s b.otherAtomIdx.toNat).filter
              (fun b2 => decide (¬ b2.otherAtomIdx = (i : ℤ)))
          else bondsAt s k := by
    intro k
    by_cases hk : k = i
    · subst hk
      rw [if_pos rfl, bondsAt_setBonds_self _ _ _ (by rw [hlen2]; exact hi)]
    · rw [if_neg hk, bondsAt_setBonds_ne _ _ _ _ hk, hb2 k, hb1 k]
  have hlen3 : (setBonds s2 i (kept ++ rest)).length = s.length := by
    rw [length_setBonds, hlen2]
  have hndsplit : ((kept ++ b :: rest).map Bond.otherAtomIdx).Nodup := by
    rw [← hsplit]; exact hndI
  have hnotb : ∀ b2 ∈ kept ++ rest, ¬ b2.otherAtomIdx = b.otherAtomIdx := by
    have hmm := middle_not_mem (kept.map Bond.otherAtomIdx)
      (rest.map Bond.otherAtomIdx) b.otherAtomIdx (by simpa using hndsplit)
    intro b2 hb2m he
    rcases List.mem_append.mp hb2m with hk | hr
    · exact hmm.1 (he ▸ List.mem_map_of_mem Bond.otherAtomIdx hk)
    · exact hmm.2 (he ▸ List.mem_map_of_mem Bond.otherAtomIdx hr)
  have hsub : List.Sublist (kept ++ rest) (kept ++ b :: rest) :=
    (List.Sublist.refl kept).append (List.sublist_cons_self b rest)
  have hmemold : ∀ b2 ∈ kept ++ rest, b2 ∈ bondsAt s i := by
    intro b2 hm
    rw [hsplit]
    exact hsub.subset hm
  refine ⟨?_, hlen3, by rw [hfin i, if_pos rfl]⟩
  intro k hk
  rw [hlen3] at hk
  constructor
  · rw [hfin k]
    by_cases hk1 : k = i
    · rw [if_pos hk1]
      exact hndsplit.sublist (hsub.map _)
    · rw [if_neg hk1]
      by_cases hk2 : k = b.otherAtomIdx.toNat
      · rw [if_pos hk2]
        exact ((h _ hj).1).sublist ((List.filter_sublist _).map _)
      · rw [if_neg hk2]
        exact (h k hk).1
  · intro b2 hb2m
    rw [hfin k] at hb2m
    simp only [hlen3]
    by_cases hk1 : k = i
    · subst hk1
      rw [if_pos rfl] at hb2m
      obtain ⟨h1, h2, h3, bp, hbp, hm⟩ := hallI b2 (hmemold b2 hb2m)
      refine ⟨h1, h2, h3, bp, ?_, hm⟩
      rw [hfin b2.otherAtomIdx.toNat]
      have hm1 : ¬ b2.otherAtomIdx.toNat = k := by omega
      have hm2 : ¬ b2.otherAtomIdx.toNat = b.otherAtomIdx.toNat := by
        have hq := hnotb b2 hb2m
        omega
      rw [if_neg hm1, if_neg hm2]
      exact hbp
    · rw [if_neg hk1] at hb2m
      by_cases hk2 : k = b.otherAtomIdx.toNat
      · subst hk2
        rw [if_pos rfl] at hb2m
        have hpair := List.mem_filter.mp hb2m
        have hb2mem := hpair.1
        have hpred : ¬ b2.otherAtomIdx = (i : ℤ) := of_decide_eq_true hpair.2
        obtain ⟨h1, h2, h3, bp, hbp, hm⟩ := (h _ hj).2 b2 hb2mem
        refine ⟨h1, h2, h3, bp, ?_, hm⟩
        rw [hfin b2.otherAtomIdx.toNat]
        have hm1 : ¬ b2.otherAtomIdx.toNat = i := by omega
        have hm2 : ¬ b2.otherAtomIdx.toNat = b.otherAtomIdx.toNat := by omega
        rw [if_neg hm1, if_neg hm2]
        exact hbp
      · rw [if_neg hk2] at hb2m
        obtain ⟨h1, h2, h3, bp, hbp, hm⟩ := (h k hk).2 b2 hb2m
        refine ⟨h1, h2, h3, bp, ?_, hm⟩
        rw [hfin b2.otherAtomIdx.toNat]
        by_cases hm1 : b2.otherAtomIdx.toNat = i
        · rw [if_pos hm1]
          rw [hm1, hsplit] at hbp
          have hbpo : bp.otherAtomIdx = (k : ℤ) := hm.1
          rcases List.mem_append.mp hbp with hkept | hcons
          · exact List.mem_append_left _ hkept
          · rcases List.mem_cons.mp hcons with rfl | hrest
            · exfalso
              apply hk2
              omega
            · exact List.mem_append_right _ hrest
        · rw [if_neg hm1]
          by_cases hm2 : b2.otherAtomIdx.toNat = b.otherAtomIdx.toNat
          · rw [if_pos hm2]
            rw [hm2] at hbp
            refine List.mem_filter.mpr ⟨hbp, ?_⟩
            rw [decide_eq_true_eq, hm.1]
            intro he
            exact hk1 (by exact_mod_cast he)
          · rw [if_neg hm2]
            exact hbp

theorem WFbonds_form (s : List AtomQ) (i j : ℕ) (hi : i < s.length)
    (hj : j < s.length) (hij : ¬ i = j)
    (hni : ∀ b ∈ bondsAt s i, ¬ b.otherAtomIdx = (j : ℤ))
    (hnj : ∀ b ∈ bondsAt s j, ¬ b.otherAtomIdx = (i : ℤ))
    (ai aj : AtomQ) (bA bB : Bond)
    (hai : ai.bonds = bondsAt s i ++ [bA])
    (haj : aj.bonds = bondsAt s j ++ [bB])
    (hbA : bA.otherAtomIdx = (j : ℤ)) (hbB : bB.otherAtomIdx = (i : ℤ))
    (hst : bB.strength = bA.strength)
    (heq : bB.equilibriumDist = bA.equilibriumDist)
    (hor : bB.order = bA.order) (hty : bB.btype = bA.btype)
    (h : WFbonds s) :
    WFbonds ((s.set i ai).set j aj)
    ∧ ((s.set i ai).set j aj).length = s.length := by
  have hfin : ∀ k, bondsAt ((s.set i ai).set j aj) k
      = if k = j then bondsAt s j ++ [bB]
        else if k = i then bondsAt s i ++ [bA]
        else bondsAt s k := by
    intro k
    by_cases hk2 : k = j
    · subst hk2
      rw [if_pos rfl, bondsAt_set_self _ _ _ (by simpa using hj), haj]
    · rw [if_neg hk2, bondsAt_set_ne _ _ _ _ hk2]
      by_cases hk1 : k = i
      · subst hk1
        rw [if_pos rfl, bondsAt_set_self _ _ _ hi, hai]
      · rw [if_neg hk1, bondsAt_set_ne _ _ _ _ hk1]
  have hlen : ((s.set i ai).set j aj).length = s.length := by simp
  refine ⟨?_, hlen⟩
  intro k hk
  rw [hlen] at hk
  constructor
  · rw [hfin k]
    by_cases hk2 : k = j
    · rw [if_pos hk2]
      rw [List.map_append, List.nodup_append]
      refine ⟨(h j hj).1, by simp, ?_⟩
      intro x hx hx2
      simp only [List.map_cons, List.map_nil, List.mem_singleton] at hx2
      subst hx2
      obtain ⟨b2, hb2m, hb2e⟩ := List.mem_map.mp hx
      apply hnj b2 hb2m
      rw [hb2e, hbB]
    · rw [if_neg hk2]
      by_cases hk1 : k = i
      · rw [if_pos hk1]
        rw [List.map_append, List.nodup_append]
        refine ⟨(h i hi).1, by simp, ?_⟩
        intro x hx hx2
        simp only [List.map_cons, List.map_nil, List.mem_singleton] at hx2
        subst hx2
        obtain ⟨b2, hb2m, hb2e⟩ := List.mem_map.mp hx
        apply hni b2 hb2m
        rw [hb2e, hbA]
      · rw [if_neg hk1]
        exact (h k hk).1
  · intro b2 hb2m
    rw [hfin k] at hb2m
    simp only [hlen]
    by_cases hk2 : k = j
    · subst hk2
      rw [if_pos rfl] at hb2m
      rcases List.mem_append.mp hb2m with hold | hnew
      · obtain ⟨h1, h2, h3, bp, hbp, hm⟩ := (h k hj).2 b2 hold
        refine ⟨h1, h2, h3, bp, ?_, hm⟩
        rw [hfin b2.otherAtomIdx.toNat]
        have hm2 : ¬ b2.otherAtomIdx.toNat = k := by omega
        rw [if_neg hm2]
        by_cases hm1 : b2.otherAtomIdx.toNat = i
        · rw [if_pos hm1]
          exact List.mem_append_left _ (hm1 ▸ hbp)
        · rw [if_neg hm1]
          exact hbp
      · have hb2e := List.mem_singleton.mp hnew
        subst hb2e
        refine ⟨by rw [hbB]; exact Int.natCast_nonneg i,
          by rw [hbB]; exact_mod_cast hi,
          by rw [hbB]; intro he; exact hij (by exact_mod_cast he), bA, ?_, ?_⟩
        · rw [hfin b2.otherAtomIdx.toNat]
          have htn : b2.otherAtomIdx.toNat = i := by rw [hbB]; omega
          rw [htn, if_neg hij, if_pos rfl]
          exact List.mem_append_right _ (List.mem_singleton_self _)
        · exact ⟨hbA, hst.symm, heq.symm, hor.symm, hty.symm⟩
    · rw [if_neg hk2] at hb2m
      by_cases hk1 : k = i
      · subst hk1
        rw [if_pos rfl] at hb2m
        rcases List.mem_append.mp hb2m with hold | hnew
        · obtain ⟨h1, h2, h3, bp, hbp, hm⟩ := (h k hi).2 b2 hold
          refine ⟨h1, h2, h3, bp, ?_, hm⟩
          rw [hfin b2.otherAtomIdx.toNat]
          have hm1 : ¬ b2.otherAtomIdx.toNat = k := by omega
          by_cases hm2 : b2.otherAtomIdx.toNat = j
          · rw [if_pos hm2]
            exact List.mem_append_left _ (hm2 ▸ hbp)
          · rw [if_neg hm2, if_neg hm1]
            exact hbp
        · have hb2e := List.mem_singleton.mp hnew
          subst hb2e
          refine ⟨by rw [hbA]; exact Int.natCast_nonneg j,
            by rw [hbA]; exact_mod_cast hj,
            by rw [hbA]; intro he; exact hij (by exact_mod_cast he.symm),
            bB, ?_, ?_⟩
          · rw [hfin b2.otherAtomIdx.toNat]
            have htn : b2.otherAtomIdx.toNat = j := by rw [hbA]; omega
            rw [htn, if_pos rfl]
            exact List.mem_append_right _ (List.mem_singleton_self _)
          · exact ⟨hbB, hst, heq, hor, hty⟩
      · rw [if_neg hk1] at hb2m
        obtain ⟨h1, h2, h3, bp, hbp, hm⟩ := (h k hk).2 b2 hb2m
        refine ⟨h1, h2, h3, bp, ?_, hm⟩
        rw [hfin b2.otherAtomIdx.toNat]
        by_cases hm2 : b2.otherAtomIdx.toNat = j
        · rw [if_pos hm2]
          exact List.mem_append_left _ (hm2 ▸ hbp)
        · rw [if_neg hm2]
          by_cases hm1 : b2.otherAtomIdx.toNat = i
          · rw [if_pos hm1]
            exact List.mem_append_left _ (hm1 ▸ hbp)
          · rw [if_neg hm1]
            exact hbp

theorem transfer_bonds_pres (l : List AtomQ) (i j : ℕ) :
    (∀ k, bondsAt (modifyAtom (l.set j (removeOuterElectron
          (l.getD j adefault)).2) i
        (fun ai => addElectron ai (removeOuterElectron
          (l.getD j adefault)).1)) k
      = bondsAt l k)
    ∧ (modifyAtom (l.set j (removeOuterElectron (l.getD j adefault)).2) i
        (fun ai => addElectron ai (removeOuterElectron
          (l.getD j adefault)).1)).length = l.length := by
  constructor
  · intro k
    rw [bondsAt_modifyAtom_pres _ _ _ (fun a => addElectron_bonds a _) k]
    by_cases hk : k = j
    · subst hk
      by_cases hj : k < l.length
      · rw [bondsAt_set_self _ _ _ hj]
        rfl
      · rw [List.set_eq_of_length_le (le_of_not_lt hj)]
    · rw [bondsAt_set_ne _ _ _ _ hk]
  · rw [length_modifyAtom, List.length_set]

theorem breakLoop_WF (fn : RealFuns) (n i : ℕ) (pending : List Bond) :
    ∀ (es : EngineState) (atoms : List AtomQ) (kept : List Bond),
      atoms.length = n → i < n → WFbonds atoms →
      bondsAt atoms i = kept ++ pending →
      WFbonds (breakLoop fn n i es atoms kept pending).2
      ∧ (breakLoop fn n i es atoms kept pending).2.length = n := by
  induction pending with
  | nil =>
    intro es atoms kept hlen hi hwf hsplit
    exact ⟨hwf, hlen⟩
  | cons b rest ih =>
    intro es atoms kept hlen hi hwf hsplit
    have hbmem : b ∈ bondsAt atoms i := by
      rw [hsplit]; exact List.mem_append_right _ (List.mem_cons_self _ _)
    obtain ⟨-, hallI⟩ := hwf i (by omega)
    obtain ⟨hb0, hbn, hbne, -⟩ := hallI b hbmem
    have hguard : ¬ (b.otherAtomIdx < 0 ∨ (n : ℤ) ≤ b.otherAtomIdx) := by
      omega
    have hil : i < atoms.length := by omega
    rw [show breakLoop fn n i es atoms kept (b :: rest)
        = if b.otherAtomIdx < 0 ∨ (n : ℤ) ≤ b.otherAtomIdx then
            breakLoop fn n i es (setBonds atoms i (kept ++ rest)) kept rest
          else
            let j := b.otherAtomIdx.toNat
            let dist := vlen fn ((atoms.getD i adefault).pos
                                 - (atoms.getD j adefault).pos)
            if shouldBreakBond fn es b dist then
              let atoms1 := modifyAtom atoms j fun aj =>
                { aj with bonds := aj.bonds.filter fun b2 =>
                    decide (¬ b2.otherAtomIdx = (i : ℤ)) }
              let step2 : EngineState × List AtomQ :=
                if b.btype = .ionic ∧ 0 < (atoms1.getD i adefault).charge then
                  if (atoms1.getD j adefault).electrons.isEmpty = false then
                    let ed := removeOuterElectron (atoms1.getD j adefault)
                    let atoms1a := atoms1.set j ed.2
                    (es, modifyAtom atoms1a i fun ai => addElectron ai ed.1)
                  else (es, atoms1)
                else (es, atoms1)
              let es2 := step2.1
              let atoms2 := step2.2
              let es3 := { es2 with
                reactionLog := es2.reactionLog ++
                  [⟨es2.simTime, .bondBroken
                      ((atoms2.getD i adefault).element.symbol)
                      ((atoms2.getD j adefault).element.symbol)
                      es2.temperature⟩]
                , totalBondE := es2.totalBondE - b.strength
                , bondBrokenCount := es2.bondBrokenCount + 1 }
              breakLoop fn n i es3 (setBonds atoms2 i (kept ++ rest)) kept rest
            else
              breakLoop fn n i es atoms (kept ++ [b]) rest
      from rfl]
    rw [if_neg hguard]
    dsimp only
    split
    · -- break fires
      split
      · -- ionic with positive charge at i
        split
        · -- partner still has electrons: full transfer block
          obtain ⟨htb, htl⟩ := transfer_bonds_pres
            (modifyAtom atoms b.otherAtomIdx.toNat fun aj =>
              { aj with bonds := aj.bonds.filter fun b2 =>
                  decide (¬ b2.otherAtomIdx = (i : ℤ)) })
            i b.otherAtomIdx.toNat
          obtain ⟨hwf3, hlen3, hsplit3⟩ := WFbonds_break atoms i b kept rest
            hil hsplit hwf _
            (by rw [htl, length_modifyAtom])
            (fun k => htb k)
          exact ih _ _ kept (by rw [hlen3, hlen]) hi hwf3 hsplit3
        · -- no electrons: bonds unchanged beyond the filter
          obtain ⟨hwf3, hlen3, hsplit3⟩ := WFbonds_break atoms i b kept rest
            hil hsplit hwf _
            (by rw [length_modifyAtom])
            (fun k => rfl)
          exact ih _ _ kept (by rw [hlen3, hlen]) hi hwf3 hsplit3
      · -- not ionic or not positive: bonds unchanged beyond the filter
        obtain ⟨hwf3, hlen3, hsplit3⟩ := WFbonds_break atoms i b kept rest
          hil hsplit hwf _
          (by rw [length_modifyAtom])
          (fun k => rfl)
        exact ih _ _ kept (by rw [hlen3, hlen]) hi hwf3 hsplit3
    · -- no break: the entry is kept
      have hsplit2 : bondsAt atoms i = (kept ++ [b]) ++ rest := by
        rw [List.append_assoc]
        exact hsplit
      exact ih es atoms (kept ++ [b]) hlen hi hwf hsplit2

theorem phase1Step_WF (fn : RealFuns) (n : ℕ) (p : EngineState × List AtomQ)
    (i : ℕ) (hlen : p.2.length = n) (hi : i < n) (h : WFbonds p.2) :
    WFbonds (phase1Step fn n p i).2 ∧ (phase1Step fn n p i).2.length = n := by
  unfold phase1Step
  exact breakLoop_WF fn n i _ p.1 p.2 [] hlen hi h (List.nil_append _).symm

theorem phase1_fold_WF (fn : RealFuns) (n : ℕ) (is : List ℕ)
    (p : EngineState × List AtomQ) (hlen : p.2.length = n)
    (his : ∀ i ∈ is, i < n) (h : WFbonds p.2) :
    WFbonds (is.foldl (phase1Step fn n) p).2
    ∧ (is.foldl (phase1Step fn n) p).2.length = n := by
  induction is generalizing p with
  | nil => exact ⟨h, hlen⟩
  | cons i is ih =>
    rw [List.foldl_cons]
    obtain ⟨h1, h2⟩ := phase1Step_WF fn n p i hlen
      (his i (List.mem_cons_self i is)) h
    exact ih (phase1Step fn n p i) h2
      (fun i2 hm => his i2 (List.mem_cons_of_mem _ hm)) h1

theorem WFbonds_absent_symm (atoms : List AtomQ) (i j : ℕ)
    (hj : j < atoms.length) (h : WFbonds atoms)
    (hni : ∀ b ∈ bondsAt atoms i, ¬ b.otherAtomIdx = (j : ℤ)) :
    ∀ b ∈ bondsAt atoms j, ¬ b.otherAtomIdx = (i : ℤ) := by
  intro b hb he
  obtain ⟨-, hall⟩ := h j hj
  obtain ⟨h1, h2, h3, bp, hbp, hm⟩ := hall b hb
  have htn : b.otherAtomIdx.toNat = i := by omega
  rw [htn] at hbp
  exact hni bp hbp hm.1

theorem tryCovalentBond_WF (fn : RealFuns) (es : EngineState)
    (atoms : List AtomQ) (i j : ℕ) (hi : i < atoms.length)
    (hj : j < atoms.length) (hij : ¬ i = j)
    (hni : ∀ b ∈ bondsAt atoms i, ¬ b.otherAtomIdx = (j : ℤ))
    (h : WFbonds atoms) :
    WFbonds (tryCovalentBond fn es atoms i j).2.2
    ∧ (tryCovalentBond fn es atoms i j).2.2.length = atoms.length := by
  have hnj := WFbonds_absent_symm atoms i j hj h hni
  unfold tryCovalentBond
  dsimp only
  split
  · exact ⟨h, rfl⟩
  split
  · exact ⟨h, rfl⟩
  exact WFbonds_form atoms i j hi hj hij hni hnj _ _ _ _
    rfl rfl rfl rfl rfl rfl rfl rfl h

theorem tryIonicBond_WF (fn : RealFuns) (es : EngineState)
    (atoms : List AtomQ) (i j : ℕ) (hi : i < atoms.length)
    (hj : j < atoms.length) (hij : ¬ i = j)
    (hni : ∀ b ∈ bondsAt atoms i, ¬ b.otherAtomIdx = (j : ℤ))
    (h : WFbonds atoms) :
    WFbonds (tryIonicBond fn es atoms i j).2.2
    ∧ (tryIonicBond fn es atoms i j).2.2.length = atoms.length := by
  have hnj := WFbonds_absent_symm atoms i j hj h hni
  unfold tryIonicBond
  dsimp only
  split
  · exact ⟨h, rfl⟩
  split
  · exact ⟨h, rfl⟩
  split
  · exact ⟨h, rfl⟩
  split
  · exact ⟨h, rfl⟩
  by_cases hd : (atoms.getD i adefault).element.electronegativity
      < (atoms.getD j adefault).element.electronegativity
  · rw [show ionicDonorIdx atoms i j = i from if_pos hd,
      show ionicAccIdx atoms i j = j from if_pos hd]
    exact WFbonds_form atoms i j hi hj hij hni hnj _ _ _ _
      rfl rfl rfl rfl rfl rfl rfl rfl h
  · rw [show ionicDonorIdx atoms i j = j from if_neg hd,
      show ionicAccIdx atoms i j = i from if_neg hd]
    exact WFbonds_form atoms j i hj hi (fun he => hij he.symm) hnj hni _ _ _ _
      rfl rfl rfl rfl rfl rfl rfl rfl h

theorem pairBondStep_WF (fn : RealFuns) (p : EngineState × List AtomQ)
    (ij : ℕ × ℕ) (hi : ij.1 < p.2.length) (hj : ij.2 < p.2.length)
    (hij : ¬ ij.1 = ij.2) (h : WFbonds p.2) :
    WFbonds (pairBondStep fn p ij).2
    ∧ (pairBondStep fn p ij).2.length = p.2.length := by
  unfold pairBondStep
  dsimp only
  split
  · exact ⟨h, rfl⟩
  split
  · exact ⟨h, rfl⟩
  rename_i hany
  have hni : ∀ b ∈ bondsAt p.2 ij.1, ¬ b.otherAtomIdx = ((ij.2 : ℕ) : ℤ) := by
    intro b hb he
    exact hany (List.any_eq_true.mpr ⟨b, hb, decide_eq_true he⟩)
  split
  · exact ⟨h, rfl⟩
  split
  · exact ⟨h, rfl⟩
  split
  · exact tryIonicBond_WF fn p.1 p.2 ij.1 ij.2 hi hj hij hni h
  · exact tryCovalentBond_WF fn p.1 p.2 ij.1 ij.2 hi hj hij hni h

theorem pairsLt_mem (n : ℕ) (ij : ℕ × ℕ) (h : ij ∈ pairsLt n) :
    ij.1 < n ∧ ij.2 < n ∧ ¬ ij.1 = ij.2 := by
  unfold pairsLt at h
  rw [List.mem_flatMap] at h
  obtain ⟨a, ha, hm⟩ := h
  rw [List.mem_map] at hm
  obtain ⟨b2, hb2, rfl⟩ := hm
  have han : a < n := List.mem_range.mp ha
  have hbn : b2 < n := List.mem_range.mp (List.mem_of_mem_drop hb2)
  have hab : ¬ a = b2 := by
    obtain ⟨idx, hidx, he⟩ := List.mem_iff_getElem.mp hb2
    rw [List.getElem_drop] at he
    rw [List.getElem_range] at he
    omega
  exact ⟨han, hbn, hab⟩

theorem pairs_fold_WF (fn : RealFuns) (n : ℕ) (ps : List (ℕ × ℕ))
    (p : EngineState × List AtomQ) (hlen : p.2.length = n)
    (hps : ∀ ij ∈ ps, ij.1 < n ∧ ij.2 < n ∧ ¬ ij.1 = ij.2)
    (h : WFbonds p.2) :
    WFbonds (ps.foldl (pairBondStep fn) p).2
    ∧ (ps.foldl (pairBondStep fn) p).2.length = n := by
  induction ps generalizing p with
  | nil => exact ⟨h, hlen⟩
  | cons ij ps ih =>
    rw [List.foldl_cons]
    obtain ⟨q1, q2, q3⟩ := hps ij (List.mem_cons_self ij ps)
    obtain ⟨h1, h2⟩ := pairBondStep_WF fn p ij (by omega) (by omega) q3 h
    exact ih (pairBondStep fn p ij) (by rw [h2, hlen])
      (fun ij2 hm => hps ij2 (List.mem_cons_of_mem _ hm)) h1

/-- **C3**: bond-graph symmetry is an invariant of the bonding pass.  If
every bond entry of the input collection targets a distinct in-range partner
other than its owner and has a mirrored entry of equal strength, equilibrium
distance, order and type in the partner's list, then the collection returned
by `updateBonds` — after the break sweep (which erases both mirrored entries
of a broken bond in the same step), the formation sweep (which pushes the
two mirrored entries of a new bond in the same step), and the final valence
recomputation — satisfies the same property. -/
theorem updateBonds_preserves_symmetry (fn : RealFuns) (es : EngineState)
    (atoms : List AtomQ) (h : WFbonds atoms) :
    WFbonds (updateBonds fn es atoms).2 := by
  unfold updateBonds
  dsimp only
  obtain ⟨h1, h2⟩ := phase1_fold_WF fn atoms.length (List.range atoms.length)
    (es, atoms) rfl (fun i hm => List.mem_range.mp hm) h
  obtain ⟨h3, h4⟩ := pairs_fold_WF fn atoms.length (pairsLt atoms.length)
    _ h2 (fun ij hm => pairsLt_mem atoms.length ij hm) h1
  exact WFbonds_congr _ _ (by rw [List.length_map, h4])
    (fun k => bondsAt_map_uev _ k) h3

theorem updateBonds_preserves_symmetry_witness :
    WFbonds c1atoms
    ∧ WFbonds (updateBonds cfuns defaultEngine c1atoms).2 :=
  ⟨by with_unfolding_all decide,
    updateBonds_preserves_symmetry cfuns defaultEngine c1atoms
      (by with_unfolding_all decide)⟩

end AtomSim

